import Mathlib

/-!
Verification development for the wp2reg-luxws repository.

The Go sources are shallowly embedded as executable Lean definitions:

* `normalizeSpace` embeds `luxws-exporter/space.go`;
* `ContentItem`, `findItemList`, `cmpName`, `cmpNameAndItems` embed
  `luxwsclient/content.go` (the content tree and its resolver);
* `collectMeasurements`, `collectDurations`, `collectTimetable`,
  `collectInfo` and `collectAll` embed the metric pipeline of
  `luxws-exporter/collector.go`;
* `transportClose` and `roundTrip` embed the transport engine of
  `luxws/transport.go` (sequentialised: the nondeterministic select
  outcome and the socket write result are explicit parameters).

Machine floats (`float64`) are modelled as `ℚ`: the embedded code only
stores, compares and copies the parsed values, it never performs any
float arithmetic, so the ordered-field structure is all that is used.
`time.Time` values are modelled by their Unix seconds as `Int`.
External collaborators (the measurement/duration/timestamp parsers of
the `luxwslang` terminology tables) are function-valued parameters of
the embedded collector, as the spec treats them as external pure
functions.
-/

/-! ### Go Unicode whitespace and string helpers -/

/-- Embeds Go's `unicode.IsSpace`: the Unicode White_Space property
(which on Latin-1 is '\t', '\n', '\v', '\f', '\r', ' ', U+0085, U+00A0). -/
def isGoSpace (c : Char) : Bool :=
  let v := c.toNat
  v == 9 || v == 10 || v == 11 || v == 12 || v == 13 || v == 32 ||
  v == 0x85 || v == 0xA0 || v == 0x1680 ||
  (decide (0x2000 ≤ v) && decide (v ≤ 0x200A)) ||
  v == 0x2028 || v == 0x2029 || v == 0x202F || v == 0x205F || v == 0x3000

/-- Leading-whitespace trim on rune lists (the left half of Go's
`strings.TrimSpace`). -/
def trimLeftWs (l : List Char) : List Char := l.dropWhile isGoSpace

/-- Trailing-whitespace trim on rune lists (the right half of Go's
`strings.TrimSpace`). -/
def trimRightWs (l : List Char) : List Char :=
  (l.reverse.dropWhile isGoSpace).reverse

/-- Embeds Go's `strings.TrimSpace`. -/
def goTrimSpaceList (l : List Char) : List Char := trimRightWs (trimLeftWs l)

/-- Embeds Go's `strings.TrimSpace` on strings. -/
def goTrimSpace (s : String) : String := String.mk (goTrimSpaceList s.data)

/-- Embeds the rune loop of `normalizeSpace` (`luxws-exporter/space.go`):
`space` counts the pending whitespace run; a non-space rune flushes a
single ASCII space when the run was non-empty. -/
def collapseAux : Nat → List Char → List Char
  | _, [] => []
  | space, c :: rest =>
    if isGoSpace c then collapseAux (space + 1) rest
    else if space > 1 then ' ' :: c :: collapseAux 0 rest
    else if space == 1 then ' ' :: c :: collapseAux 0 rest
    else c :: collapseAux 0 rest

/-- Embeds `normalizeSpace` from `luxws-exporter/space.go`. -/
def normalizeSpace (s : String) : String :=
  if s = "" then "" else String.mk (collapseAux 0 (goTrimSpaceList s.data))

/-- Splits a rune list into its maximal whitespace-free words; the
second argument is the reversed word in progress.  This is the
specification-side view of whitespace normalization. -/
def wordsAux : List Char → List Char → List (List Char)
  | [], [] => []
  | [], acc => [acc.reverse]
  | c :: rest, acc =>
    if isGoSpace c then
      match acc with
      | [] => wordsAux rest []
      | _ => acc.reverse :: wordsAux rest []
    else wordsAux rest (c :: acc)

/-- The whitespace-separated words of a rune list. -/
def wsWords (l : List Char) : List (List Char) := wordsAux l []

/-- Joins words with single ASCII spaces. -/
def joinWords : List (List Char) → List Char
  | [] => []
  | [w] => w
  | w :: ws => w ++ ' ' :: joinWords ws

/-- Modelled from the spec: runs of Unicode whitespace collapse to a
single ASCII space and leading/trailing whitespace is trimmed, i.e. the
result is the whitespace-separated words joined by single spaces. -/
def normalizeSpaceSpec (s : String) : String :=
  String.mk (joinWords (wsWords s.data))

/-- Embeds Go's `strings.Trim(s, "-")` (only used to test for
an all-dash string). -/
def goTrimDashes (s : String) : String :=
  String.mk (((s.data.dropWhile (· = '-')).reverse.dropWhile (· = '-')).reverse)

/-- Embeds Go's `strings.ToLower` (ASCII case mapping; the terminology
keys involved are ASCII). -/
def goToLower (s : String) : String := String.mk (s.data.map Char.toLower)

/-- Embeds Go's `strings.EqualFold` (simple case folding). -/
def goEqualFold (a b : String) : Bool := goToLower a == goToLower b

/-! ### Content tree (`luxwsclient/content.go`)

`ContentItem` keeps the fields the embedded code reads (`ID`, `Name`,
`Value`, `Items`); the remaining XML fields (`Min`, `Max`, `Step`,
`Unit`, `Div`, `Raw`, `Columns`, `Headers`, `Options`) are never read
by the collector or resolver and are elided.  The child list is a
specialised inductive so that all tree recursions are structural. -/

mutual

inductive ContentItem : Type where
  | mk (id : String) (name : String) (value : Option String)
       (items : ContentItemList)

inductive ContentItemList : Type where
  | nil
  | cons (head : ContentItem) (tail : ContentItemList)

end

def ContentItem.id : ContentItem → String
  | .mk i _ _ _ => i

def ContentItem.name : ContentItem → String
  | .mk _ n _ _ => n

def ContentItem.value : ContentItem → Option String
  | .mk _ _ v _ => v

def ContentItem.items : ContentItem → ContentItemList
  | .mk _ _ _ l => l

def ContentItemList.toList : ContentItemList → List ContentItem
  | .nil => []
  | .cons h t => h :: t.toList

/-- Builds a `ContentItemList` from a plain list (used to write down
concrete trees). -/
def itemsOf : List ContentItem → ContentItemList
  | [] => .nil
  | h :: t => .cons h (itemsOf t)

/-- Embeds `ContentRoot` (the XML name is kept but unused by the
resolver). -/
structure ContentRoot where
  xmlName : String
  items : ContentItemList

/-- Embeds `CmpName`: plain name equality. -/
def cmpName (name : String) (itm : ContentItem) : Bool :=
  name == itm.name

/-- Embeds `CmpNameAndItems`: name equality and at least one child. -/
def cmpNameAndItems (name : String) (itm : ContentItem) : Bool :=
  name == itm.name && !(itm.items.toList.isEmpty)

mutual

/-- Embeds `ContentItems.findContentItemByName`: for each item in
order, test the predicate, then descend into its children, then move
to the next sibling. -/
def findItemList (cmp : ContentItem → Bool) : ContentItemList → Option ContentItem
  | .nil => none
  | .cons i rest =>
    if cmp i then some i
    else
      match findItemInside cmp i with
      | some r => some r
      | none => findItemList cmp rest

/-- Descends into one item's child list. -/
def findItemInside (cmp : ContentItem → Bool) : ContentItem → Option ContentItem
  | .mk _ _ _ items => findItemList cmp items

end

/-- Embeds `ContentRoot.FindByName`; the error is
`ErrContentItemNotFound`. -/
def contentFindByName (r : ContentRoot) (cmp : ContentItem → Bool) :
    Except String ContentItem :=
  match findItemList cmp r.items with
  | some itm => .ok itm
  | none => .error "content item not found"

mutual

/-- Depth-first pre-order flattening of an item list, children in
document order (specification-side view of the traversal). -/
def preorderList : ContentItemList → List ContentItem
  | .nil => []
  | .cons i rest => i :: (preorderInside i ++ preorderList rest)

/-- Pre-order flattening of one item's children. -/
def preorderInside : ContentItem → List ContentItem
  | .mk _ _ _ items => preorderList items

end

/-- Embeds `ContentItem.EachNonNil`: the direct children whose value is
present, in document order (the Go method invokes its callback exactly
on these). -/
def ContentItem.eachNonNil (ci : ContentItem) : List ContentItem :=
  ci.items.toList.filter (fun it => it.value.isSome)

/-! ### Samples and the collector (`luxws-exporter/collector.go`) -/

/-- Embeds `prometheus.ValueType` (only the two kinds the collector
uses). -/
inductive ValueType : Type where
  | gauge
  | counter
deriving DecidableEq

/-- Embeds `vt.ToDTO().String()`, used to build counter-floor map
keys. -/
def ValueType.dtoString : ValueType → String
  | .gauge => "GAUGE"
  | .counter => "COUNTER"

/-- Embeds `prometheus.MustNewConstMetric(desc, vt, value, labels...)`:
a sample is its metric family (named by the metric name of the
`prometheus.Desc`), a value kind, a numeric value and the label
values. -/
structure Sample where
  desc : String
  vt : ValueType
  value : ℚ
  labels : List String
deriving DecidableEq

def infoDesc : String := "luxws_info"
def temperatureDesc : String := "luxws_temperature"
def operatingDurationDesc : String := "luxws_operating_duration_seconds"
def elapsedDurationDesc : String := "luxws_elapsed_duration_seconds"
def inputDesc : String := "luxws_input"
def outputDesc : String := "luxws_output"
def opModeDesc : String := "luxws_operational_mode"
def opModeIDDesc : String := "luxws_operational_mode_id"
def ssPowerConsumptionDesc : String := "luxws_ss_energy_input"
def ssHeatingCapacityDesc : String := "luxws_ss_heat_capacity"
def energyInputDesc : String := "luxws_energy_input"
def suppliedHeatDesc : String := "luxws_supplied_heat"
def suppliedHeatCntrDesc : String := "luxws_supplied_heat_cntr"
def latestErrorDesc : String := "luxws_latest_error"
def switchOffDesc : String := "luxws_latest_switchoff"
def impulsesDesc : String := "luxws_impulses"
def defrostDesc : String := "luxws_defrost"

/-- Association-list lookup (model of a Go map read returning
`(value, ok)`). -/
def alookup {α : Type} : List (String × α) → String → Option α
  | [], _ => none
  | p :: rest, k => if p.1 = k then some p.2 else alookup rest k

/-- Unix seconds of Go's zero `time.Time` (January 1, year 1, UTC). -/
def goZeroTimeUnix : Int := -62135596800

/-- Embeds the `luxwslang.Terminology` fields read by the collector.
The measurement/duration/timestamp parsers are module-external in the
spec's sense ("treated as a pure function"), hence function-valued
fields here. -/
structure Terminology where
  boolFalse : String
  boolTrue : String
  navSystemStatus : String
  statusType : String
  statusSoftwareVersion : String
  statusOperationMode : String
  statusHeatingCapacity : String
  statusPowerConsumption : String
  statusDefrostDemand : String
  statusLastDefrost : String
  navTemperatures : String
  navOpHours : String
  navElapsedTimes : String
  navInputs : String
  navOutputs : String
  navHeatQuantity : String
  navEnergyInput : String
  navErrorMemory : String
  navSwitchOffs : String
  operationModeMapping : List (String × ℚ)
  hoursImpulsesFn : Option (String → Bool)
  parseMeasurement : String → Except String (ℚ × String)
  parseDuration : String → Except String ℚ
  parseTimestamp : String → Except String Int
  parseTimestampShort : String → Except String Int

/-- Embeds the `collector` receiver (the logger is modelled as always
present, as every constructed collector carries one; log calls become
entries of a returned log list). -/
structure Collector where
  terms : Terminology

/-- Embeds the scrape-transient `quirks` record. -/
structure Quirks where
  missingSuppliedHeat : Bool
deriving DecidableEq

/-- Embeds `collector.parseValue`: trim, compare against the locale's
boolean literals, else delegate to the measurement parser. -/
def parseValue (c : Collector) (text : String) : Except String (ℚ × String) :=
  let text := goTrimSpace text
  if text = c.terms.boolFalse then .ok (0, "bool")
  else if text = c.terms.boolTrue then .ok (1, "bool")
  else c.terms.parseMeasurement text

/-- The cross-scrape counter floor map
(`collector.nonDecreasingCounterValues`). -/
abbrev Floors := List (String × ℚ)

/-- Go map read: a missing key reads as the zero value 0. -/
def floorGet : Floors → String → ℚ
  | [], _ => 0
  | p :: rest, k => if p.1 = k then p.2 else floorGet rest k

/-- Go map write: replace the key's entry or add one. -/
def floorSet : Floors → String → ℚ → Floors
  | [], k, v => [(k, v)]
  | p :: rest, k, v => if p.1 = k then (k, v) :: rest else p :: floorSet rest k v

/-- Embeds `collectOptions`. -/
structure CollectOptions where
  optionalIsAllowed : Option (String → Bool) := none
  itemCompareFn : Option (String → ContentItem → Bool) := none

/-- The filter test `opts.optionalIsAllowed != nil && !opts.optionalIsAllowed(name)`
inverted: whether the item passes. -/
def allowedB (opts : CollectOptions) (name : String) : Bool :=
  match opts.optionalIsAllowed with
  | some f => f name
  | none => true

/-- The counter floor key `fmt.Sprintf("%s_%s_%s", groupName, item.Name, vt...)`. -/
def counterMapKey (groupName itemName : String) (vt : ValueType) : String :=
  groupName ++ "_" ++ itemName ++ "_" ++ vt.dtoString

/-- Accumulator of the `EachNonNil` callback in `collectMeasurements`. -/
structure MeasAcc where
  fl : Floors
  samples : List Sample
  logs : List String
  found : Bool
deriving DecidableEq

/-- Embeds the `EachNonNil` callback body of `collectMeasurements`:
filter, parse, then emit (gauge) or emit-if-at-least-floor (counter). -/
def measStep (c : Collector) (desc groupName : String) (vt : ValueType)
    (opts : CollectOptions) (acc : MeasAcc) (item : ContentItem) : MeasAcc :=
  if !allowedB opts item.name then acc
  else
    match parseValue c (item.value.getD "") with
    | .error e =>
      MeasAcc.mk acc.fl acc.samples (acc.logs ++ ["parseValue failed: " ++ e]) acc.found
    | .ok (value, unit) =>
      let key := counterMapKey groupName item.name vt
      match vt with
      | .gauge =>
        MeasAcc.mk acc.fl
          (acc.samples ++ [Sample.mk desc vt value [normalizeSpace item.name, unit]])
          acc.logs true
      | .counter =>
        if floorGet acc.fl key ≤ value then
          MeasAcc.mk (floorSet acc.fl key value)
            (acc.samples ++ [Sample.mk desc vt value [normalizeSpace item.name, unit]])
            acc.logs true
        else
          MeasAcc.mk acc.fl acc.samples
            (acc.logs ++ ["skipping decreasing counter value " ++ key]) true

/-- The compare function `collectMeasurements` resolves the group
with: `opts.ItemCompareFn(groupName)` when set, else `CmpName`. -/
def cmpOf (opts : CollectOptions) (groupName : String) : ContentItem → Bool :=
  match opts.itemCompareFn with
  | some f => f groupName
  | none => cmpName groupName

/-- Embeds `collector.collectMeasurements`.  Returns the emitted
samples, the log messages, the step error and the updated counter
floor map. -/
def collectMeasurements (c : Collector) (desc : String) (content : ContentRoot)
    (groupName : String) (vt : ValueType) (opts : CollectOptions) (fl : Floors) :
    List Sample × List String × Option String × Floors :=
  match contentFindByName content (cmpOf opts groupName) with
  | .error e =>
    ([], [],
     some ("collectMeasurements.content.FindByName " ++ groupName ++ " failed: " ++ e),
     fl)
  | .ok group =>
    let r := (group.eachNonNil).foldl (measStep c desc groupName vt opts)
      (MeasAcc.mk fl [] [] false)
    if r.found then (r.samples, r.logs, none, r.fl)
    else (r.samples ++ [Sample.mk desc vt 0 ["", ""]], r.logs, none, r.fl)

/-- Embeds the item loop of `collector.collectDurations`: placeholder
or ignored rows are skipped; a duration parse failure aborts the step
(samples already emitted stay emitted); otherwise a gauge sample with
the duration in seconds is emitted. -/
def durLoop (c : Collector) (desc : String) (ignoreFn : Option (String → Bool)) :
    List ContentItem → List Sample × Bool × Option String
  | [] => ([], false, none)
  | item :: rest =>
    if item.value.isNone || (match ignoreFn with | some f => f item.name | none => false) then
      durLoop c desc ignoreFn rest
    else
      match c.terms.parseDuration (item.value.getD "") with
      | .error e => ([], false, some e)
      | .ok secs =>
        let s := Sample.mk desc .gauge secs [normalizeSpace item.name]
        let r := durLoop c desc ignoreFn rest
        (s :: r.1, true, r.2.2)

/-- Embeds `collector.collectDurations`. -/
def collectDurations (c : Collector) (desc : String) (content : ContentRoot)
    (groupName : String) (ignoreFn : Option (String → Bool)) :
    List Sample × Option String :=
  match contentFindByName content (cmpName groupName) with
  | .error e =>
    ([], some ("collectDurations.content.FindByName " ++ groupName ++ " failed: " ++ e))
  | .ok group =>
    let r := durLoop c desc ignoreFn group.items.toList
    match r.2.2 with
    | some e => (r.1, some e)
    | none =>
      if r.2.1 then (r.1, none)
      else (r.1 ++ [Sample.mk desc .gauge 0 [""]], none)

/-- Whether a timetable row is kept: it has a value and its normalized
name is not all dashes (`strings.Trim(tsRaw, "-") == ""`). -/
def validRow (it : ContentItem) : Bool :=
  it.value.isSome && !(goTrimDashes (normalizeSpace it.name) == "")

/-- The normalized free-text reason of a timetable row. -/
def rowReason (it : ContentItem) : String := normalizeSpace (it.value.getD "")

/-- Embeds `latest[reason] = ts` under the guard
`prev.IsZero() || prev.Before(ts)`: the map read of an absent key is
the zero time (`IsZero`), and parsed timestamps are never the zero
time, so an association-list entry is created when absent and replaced
exactly when strictly older. -/
def upsertLatest : List (String × Int) → String → Int → List (String × Int)
  | [], r, t => [(r, t)]
  | p :: rest, r, t =>
    if p.1 = r then (if p.2 < t then (r, t) :: rest else p :: rest)
    else p :: upsertLatest rest r t

/-- Embeds the row loop of `collector.collectTimetable`, building the
per-reason latest-timestamp map; a timestamp parse failure aborts the
step. -/
def ttLoop (c : Collector) :
    List ContentItem → List (String × Int) → Except String (List (String × Int))
  | [], latest => .ok latest
  | item :: rest, latest =>
    let tsRaw := normalizeSpace item.name
    if item.value.isNone || goTrimDashes tsRaw == "" then ttLoop c rest latest
    else
      match c.terms.parseTimestamp tsRaw with
      | .error e => .error e
      | .ok ts => ttLoop c rest (upsertLatest latest (normalizeSpace (item.value.getD "")) ts)

/-- Embeds `collector.collectTimetable`. -/
def collectTimetable (c : Collector) (desc : String) (content : ContentRoot)
    (groupName : String) : List Sample × Option String :=
  match contentFindByName content (cmpName groupName) with
  | .error e =>
    ([], some ("collectTimetable.content.FindByName " ++ groupName ++ " failed: " ++ e))
  | .ok group =>
    match ttLoop c group.items.toList [] with
    | .error e => ([], some e)
    | .ok latest =>
      if latest.isEmpty then ([Sample.mk desc .gauge 0 [""]], none)
      else (latest.map (fun p => Sample.mk desc .gauge (p.2 : ℚ) [p.1]), none)

/-- Accumulator of the `EachNonNil` switch in `collectInfo`.  The Go
parse-error paths assign the parser's zero-valued results before
logging, which is modelled by resetting the corresponding fields. -/
structure InfoAcc where
  swVersion : String := ""
  opMode : String := ""
  heatOutputUnit : String := ""
  heatCapUnit : String := ""
  defrostDemandUnit : String := ""
  powerConsumptionValue : ℚ := 0
  heatCapacityValue : ℚ := 0
  defrostDemandValue : ℚ := 0
  hpType : List String := []
  lastDefrost : Int := goZeroTimeUnix
  missingSuppliedHeat : Bool := false
  logs : List String := []

/-- Embeds the `EachNonNil` switch body of `collectInfo` (the Go
`switch item.Name` with its cases in source order). -/
def infoItemStep (c : Collector) (acc : InfoAcc) (item : ContentItem) : InfoAcc :=
  let v := item.value.getD ""
  if item.name = c.terms.statusType then
    let name := normalizeSpace v
    let acc1 := if goEqualFold name "L2A" then
      InfoAcc.mk acc.swVersion acc.opMode acc.heatOutputUnit acc.heatCapUnit
        acc.defrostDemandUnit acc.powerConsumptionValue acc.heatCapacityValue
        acc.defrostDemandValue acc.hpType acc.lastDefrost true acc.logs
      else acc
    InfoAcc.mk acc1.swVersion acc1.opMode acc1.heatOutputUnit acc1.heatCapUnit
      acc1.defrostDemandUnit acc1.powerConsumptionValue acc1.heatCapacityValue
      acc1.defrostDemandValue (acc1.hpType ++ [name]) acc1.lastDefrost
      acc1.missingSuppliedHeat acc1.logs
  else if item.name = c.terms.statusSoftwareVersion then
    InfoAcc.mk (normalizeSpace v) acc.opMode acc.heatOutputUnit acc.heatCapUnit
      acc.defrostDemandUnit acc.powerConsumptionValue acc.heatCapacityValue
      acc.defrostDemandValue acc.hpType acc.lastDefrost acc.missingSuppliedHeat acc.logs
  else if item.name = c.terms.statusOperationMode then
    let m := normalizeSpace v
    let m := if m = "" then "off" else m
    InfoAcc.mk acc.swVersion m acc.heatOutputUnit acc.heatCapUnit
      acc.defrostDemandUnit acc.powerConsumptionValue acc.heatCapacityValue
      acc.defrostDemandValue acc.hpType acc.lastDefrost acc.missingSuppliedHeat acc.logs
  else if item.name = c.terms.statusHeatingCapacity then
    match parseValue c v with
    | .ok r =>
      InfoAcc.mk acc.swVersion acc.opMode acc.heatOutputUnit r.2
        acc.defrostDemandUnit acc.powerConsumptionValue r.1
        acc.defrostDemandValue acc.hpType acc.lastDefrost acc.missingSuppliedHeat acc.logs
    | .error _ =>
      InfoAcc.mk acc.swVersion acc.opMode acc.heatOutputUnit ""
        acc.defrostDemandUnit acc.powerConsumptionValue 0
        acc.defrostDemandValue acc.hpType acc.lastDefrost acc.missingSuppliedHeat
        (acc.logs ++ ["StatusHeatingCapacity parseValue failed"])
  else if item.name = c.terms.statusPowerConsumption then
    match parseValue c v with
    | .ok r =>
      InfoAcc.mk acc.swVersion acc.opMode r.2 acc.heatCapUnit
        acc.defrostDemandUnit r.1 acc.heatCapacityValue
        acc.defrostDemandValue acc.hpType acc.lastDefrost acc.missingSuppliedHeat acc.logs
    | .error _ =>
      InfoAcc.mk acc.swVersion acc.opMode "" acc.heatCapUnit
        acc.defrostDemandUnit 0 acc.heatCapacityValue
        acc.defrostDemandValue acc.hpType acc.lastDefrost acc.missingSuppliedHeat
        (acc.logs ++ ["StatusPowerConsumption parseValue failed"])
  else if item.name = c.terms.statusDefrostDemand then
    match parseValue c v with
    | .ok r =>
      InfoAcc.mk acc.swVersion acc.opMode acc.heatOutputUnit acc.heatCapUnit
        r.2 acc.powerConsumptionValue acc.heatCapacityValue
        r.1 acc.hpType acc.lastDefrost acc.missingSuppliedHeat acc.logs
    | .error _ =>
      InfoAcc.mk acc.swVersion acc.opMode acc.heatOutputUnit acc.heatCapUnit
        "" acc.powerConsumptionValue acc.heatCapacityValue
        0 acc.hpType acc.lastDefrost acc.missingSuppliedHeat
        (acc.logs ++ ["StatusDefrostDemand parseValue failed"])
  else if item.name = c.terms.statusLastDefrost then
    match c.terms.parseTimestampShort v with
    | .ok t =>
      InfoAcc.mk acc.swVersion acc.opMode acc.heatOutputUnit acc.heatCapUnit
        acc.defrostDemandUnit acc.powerConsumptionValue acc.heatCapacityValue
        acc.defrostDemandValue acc.hpType t acc.missingSuppliedHeat acc.logs
    | .error _ =>
      InfoAcc.mk acc.swVersion acc.opMode acc.heatOutputUnit acc.heatCapUnit
        acc.defrostDemandUnit acc.powerConsumptionValue acc.heatCapacityValue
        acc.defrostDemandValue acc.hpType goZeroTimeUnix acc.missingSuppliedHeat
        (acc.logs ++ ["StatusLastDefrost parseValue failed"])
  else acc

/-- The accumulated state after `collectInfo` walked the system-status
group. -/
def collectInfoAcc (c : Collector) (group : ContentItem) : InfoAcc :=
  (group.eachNonNil).foldl (infoItemStep c) (InfoAcc.mk "" "" "" "" "" 0 0 0 [] goZeroTimeUnix false [])

/-- Embeds `collector.collectInfo`.  Returns samples, logs, the step
error and the updated quirks. -/
def collectInfo (c : Collector) (content : ContentRoot) (q : Quirks) :
    List Sample × List String × Option String × Quirks :=
  match contentFindByName content (cmpName c.terms.navSystemStatus) with
  | .error e =>
    ([], [], some ("collectInfo.content.FindByName NavSystemStatus failed: " ++ e), q)
  | .ok group =>
    let acc := collectInfoAcc c group
    let hpSorted := acc.hpType.insertionSort (fun a b => a ≤ b)
    let opModeID : ℚ :=
      match alookup c.terms.operationModeMapping (goToLower acc.opMode) with
      | some v => v
      | none => -1
    let logs :=
      match alookup c.terms.operationModeMapping (goToLower acc.opMode) with
      | some _ => acc.logs
      | none => acc.logs ++ ["opMode not configured in code"]
    ([Sample.mk infoDesc .gauge 1 [acc.swVersion, String.intercalate ", " hpSorted],
      Sample.mk opModeDesc .gauge 1 [acc.opMode],
      Sample.mk opModeIDDesc .gauge opModeID [acc.opMode],
      Sample.mk ssPowerConsumptionDesc .gauge acc.powerConsumptionValue [acc.heatOutputUnit],
      Sample.mk ssHeatingCapacityDesc .gauge acc.heatCapacityValue [acc.heatCapUnit],
      Sample.mk defrostDesc .gauge acc.defrostDemandValue ["demand", acc.defrostDemandUnit],
      Sample.mk defrostDesc .gauge (acc.lastDefrost : ℚ) ["last", "ts"]],
     logs, none, Quirks.mk (q.missingSuppliedHeat || acc.missingSuppliedHeat))

/-! ### The fixed step list and `collectAll` -/

/-- Per-scrape pipeline state: transient quirks plus the persistent
counter floor map. -/
structure ScrapeState where
  q : Quirks
  fl : Floors
deriving DecidableEq

/-- Output of one extraction step: samples, logs, optional error. -/
abbrev StepOut := List Sample × List String × Option String

/-- Embeds `contentCollectFunc` (plus the threaded floor map, which in
Go lives on the collector receiver). -/
abbrev StepFn := Collector → ContentRoot → ScrapeState → StepOut × ScrapeState

/-- `collector.collectInfo` as a pipeline step. -/
def collectInfoStep : StepFn := fun c content st =>
  let r := collectInfo c content st.q
  ((r.1, r.2.1, r.2.2.1), ScrapeState.mk r.2.2.2 st.fl)

/-- `collector.collectTemperatures`. -/
def collectTemperaturesStep : StepFn := fun c content st =>
  let r := collectMeasurements c temperatureDesc content c.terms.navTemperatures .gauge
    (CollectOptions.mk none none) st.fl
  ((r.1, r.2.1, r.2.2.1), ScrapeState.mk st.q r.2.2.2)

/-- `collector.collectOperatingDuration`. -/
def collectOperatingDurationStep : StepFn := fun c content st =>
  let r := collectDurations c operatingDurationDesc content c.terms.navOpHours
    c.terms.hoursImpulsesFn
  ((r.1, [], r.2), st)

/-- `collector.collectElapsedTime`. -/
def collectElapsedTimeStep : StepFn := fun c content st =>
  let r := collectDurations c elapsedDurationDesc content c.terms.navElapsedTimes none
  ((r.1, [], r.2), st)

/-- `collector.collectInputs`. -/
def collectInputsStep : StepFn := fun c content st =>
  let r := collectMeasurements c inputDesc content c.terms.navInputs .gauge
    (CollectOptions.mk none none) st.fl
  ((r.1, r.2.1, r.2.2.1), ScrapeState.mk st.q r.2.2.2)

/-- `collector.collectOutputs`. -/
def collectOutputsStep : StepFn := fun c content st =>
  let r := collectMeasurements c outputDesc content c.terms.navOutputs .gauge
    (CollectOptions.mk none none) st.fl
  ((r.1, r.2.1, r.2.2.1), ScrapeState.mk st.q r.2.2.2)

/-- Embeds `errors.Join` restricted to two operands: `nil` iff both
are `nil`. -/
def joinErr : Option String → Option String → Option String
  | none, none => none
  | some a, none => some a
  | none, some b => some b
  | some a, some b => some (a ++ "\n" ++ b)

/-- `collector.collectSuppliedHeat`: skipped entirely under the quirk,
otherwise a gauge pass and a counter pass over the same group. -/
def collectSuppliedHeatStep : StepFn := fun c content st =>
  if st.q.missingSuppliedHeat then (([], [], none), st)
  else
    let r1 := collectMeasurements c suppliedHeatDesc content c.terms.navHeatQuantity .gauge
      (CollectOptions.mk none none) st.fl
    let r2 := collectMeasurements c suppliedHeatCntrDesc content c.terms.navHeatQuantity .counter
      (CollectOptions.mk none none) r1.2.2.2
    ((r1.1 ++ r2.1, r1.2.1 ++ r2.2.1, joinErr r1.2.2.1 r2.2.2.1),
     ScrapeState.mk st.q r2.2.2.2)

/-- `collector.collectEnergyInput`: counter-only, resolved with the
name-and-has-children predicate. -/
def collectEnergyInputStep : StepFn := fun c content st =>
  let r := collectMeasurements c energyInputDesc content c.terms.navEnergyInput .counter
    (CollectOptions.mk none (some (fun g => cmpNameAndItems g))) st.fl
  ((r.1, r.2.1, r.2.2.1), ScrapeState.mk st.q r.2.2.2)

/-- `collector.collectLatestError`. -/
def collectLatestErrorStep : StepFn := fun c content st =>
  let r := collectTimetable c latestErrorDesc content c.terms.navErrorMemory
  ((r.1, [], r.2), st)

/-- `collector.collectLatestSwitchOff`. -/
def collectLatestSwitchOffStep : StepFn := fun c content st =>
  let r := collectTimetable c switchOffDesc content c.terms.navSwitchOffs
  ((r.1, [], r.2), st)

/-- `collector.collectImpulses`: counter over the operating-hours
group restricted to the impulse rows. -/
def collectImpulsesStep : StepFn := fun c content st =>
  let r := collectMeasurements c impulsesDesc content c.terms.navOpHours .counter
    (CollectOptions.mk c.terms.hoursImpulsesFn none) st.fl
  ((r.1, r.2.1, r.2.2.1), ScrapeState.mk st.q r.2.2.2)

/-- The fixed, ordered step list of `collector.collectAll`. -/
def allSteps : List StepFn :=
  [collectInfoStep,
   collectTemperaturesStep,
   collectOperatingDurationStep,
   collectElapsedTimeStep,
   collectInputsStep,
   collectOutputsStep,
   collectSuppliedHeatStep,
   collectEnergyInputStep,
   collectLatestErrorStep,
   collectLatestSwitchOffStep,
   collectImpulsesStep]

/-- Embeds the loop of `collector.collectAll`: every step runs; its
samples and logs are appended and its error, if any, appended to the
aggregate (`multierr.AppendInto`). -/
def collectAllAux (c : Collector) (content : ContentRoot) :
    List StepFn → ScrapeState → List Sample → List String → List String →
    List Sample × List String × List String × ScrapeState
  | [], st, samples, logs, errs => (samples, logs, errs, st)
  | f :: fs, st, samples, logs, errs =>
    let r := f c content st
    collectAllAux c content fs r.2 (samples ++ r.1.1) (logs ++ r.1.2.1)
      (errs ++ r.1.2.2.toList)

/-- Embeds `collector.collectAll` (quirks start zeroed; the floor map
is the collector's persistent state).  The aggregated error is the
list of step errors in step order; `[]` plays the role of a `nil`
aggregate. -/
def collectAll (c : Collector) (content : ContentRoot) (fl : Floors) :
    List Sample × List String × List String × ScrapeState :=
  collectAllAux c content allSteps (ScrapeState.mk (Quirks.mk false) fl) [] [] []

/-- Runs the steps in order, keeping each step's output separate
(specification-side view of `collectAll`). -/
def runSteps (c : Collector) (content : ContentRoot) :
    List StepFn → ScrapeState → List StepOut × ScrapeState
  | [], st => ([], st)
  | f :: fs, st =>
    let r := f c content st
    let rest := runSteps c content fs r.2
    (r.1 :: rest.1, rest.2)

/-! ### Transport engine (`luxws/transport.go`)

The transport is sequentialised.  The mutex-protected shared state is
`TransportState`; the three-way `select` of `roundTrip` and the result
of the socket write are oracle parameters, so every theorem quantifies
over all schedules.  The `responseHandler` object itself (its code is
not part of the sources here) is identified by an opaque tag: the
claims only concern which handler occupies the single slot. -/

/-- The transport errors relevant to the claims.  `closed` stands for
`net.ErrClosed` (which Go reports both for the terminal error fixed by
`Close` and for closing an already-closed socket); `busy` is
`ErrBusy`; `notRunning` is `ErrNotRunning`; `ctxCanceled` a context
error; `writeErr`/`readErr` wrap socket failures. -/
inductive TErr : Type where
  | closed
  | busy
  | notRunning
  | ctxCanceled
  | writeErr (s : String)
  | readErr (s : String)
deriving DecidableEq

/-- The mutex-guarded state of `transport`: whether the socket was
closed, whether the receiver goroutine has terminated (`recvDone`
closed), the terminal error `recvErr`, and the single handler slot. -/
structure TransportState where
  socketClosed : Bool
  recvDone : Bool
  recvErr : Option TErr
  handler : Option Nat
deriving DecidableEq

/-- The state `newTransport` starts from. -/
def newTransportState : TransportState :=
  TransportState.mk false false none none

/-- Result of the first critical section of `roundTrip`. -/
inductive StartResult : Type where
  | reject (e : Option TErr)
  | installed (st : TransportState)
deriving DecidableEq

/-- Embeds the first mutex-protected section of `transport.roundTrip`:
if the receiver has terminated the terminal error is returned; else if
a handler is installed the call is rejected busy; else the new handler
is installed. -/
def roundTripStart (st : TransportState) (h : Nat) : StartResult :=
  if st.recvDone then .reject st.recvErr
  else
    match st.handler with
    | some _ => .reject (some .busy)
    | none => .installed (TransportState.mk st.socketClosed st.recvDone st.recvErr (some h))

/-- The three events of the completion `select` in `roundTrip`:
handler completion (with its stored error), receiver termination, or
context cancellation/expiry. -/
inductive RTEvent : Type where
  | handlerDone (e : Option TErr)
  | recvTerminated
  | ctxDone
deriving DecidableEq

/-- Embeds the `select` plus the unconditional handler removal of
`transport.roundTrip`. -/
def roundTripWait (st : TransportState) (outcome : RTEvent) :
    Option TErr × TransportState :=
  match outcome with
  | .handlerDone e =>
    (e, TransportState.mk st.socketClosed st.recvDone st.recvErr none)
  | .recvTerminated =>
    (st.recvErr, TransportState.mk st.socketClosed st.recvDone st.recvErr none)
  | .ctxDone =>
    (some .ctxCanceled, TransportState.mk st.socketClosed st.recvDone st.recvErr none)

/-- Embeds `transport.roundTrip` end to end.  `writeRes` is the
socket's answer to `writeMessage` (external oracle); `outcome` the
`select` branch taken.  The returned list records the socket writes
performed. -/
def roundTrip (st : TransportState) (h : Nat) (writeRes : Option TErr)
    (outcome : RTEvent) : Option TErr × TransportState × List String :=
  match roundTripStart st h with
  | .reject e => (e, st, [])
  | .installed st1 =>
    match writeRes with
    | some e =>
      (some e, TransportState.mk st1.socketClosed st1.recvDone st1.recvErr none, ["write"])
    | none =>
      let r := roundTripWait st1 outcome
      (r.1, r.2, ["write"])

/-- Embeds `transport.Close`: closing an already-closed socket fails
immediately (`net.ErrClosed`, without waiting); otherwise the socket
is closed, which unblocks the receiver's read with the closed error so
the receiver records it and terminates, and `Close` then fixes
`recvErr` to `net.ErrClosed`.  The boolean records whether the call
blocked on receiver termination. -/
def transportClose (st : TransportState) : Option TErr × TransportState × Bool :=
  if st.socketClosed then (some .closed, st, false)
  else
    (none, TransportState.mk true true (some .closed) st.handler, true)

/-! ### Specification-side helpers used in claim statements -/

/-- Arguments of one `collectMeasurements` call (used to speak about
arbitrary call sequences against one collector instance). -/
structure MeasCall where
  desc : String
  content : ContentRoot
  groupName : String
  vt : ValueType
  opts : CollectOptions

/-- Runs a sequence of `collectMeasurements` calls, threading the
persistent counter floor map. -/
def runMeasCalls (c : Collector) : List MeasCall → Floors → Floors
  | [], fl => fl
  | a :: rest, fl =>
    runMeasCalls c rest (collectMeasurements c a.desc a.content a.groupName a.vt a.opts fl).2.2.2

/-- Folds the timetable update rule over a list of timestamps:
`none`/strictly-older is replaced, ties and newer entries are kept. -/
def maxInto : Option Int → List Int → Option Int
  | o, [] => o
  | o, t :: ts =>
    maxInto (some (match o with
                   | none => t
                   | some p => if p < t then t else p)) ts

/-- The `(reason, timestamp)` pairs of the kept timetable rows, in row
order (timestamps defaulted to 0, which never happens for rows whose
parse succeeds). -/
def rowPairs (c : Collector) (items : List ContentItem) : List (String × Int) :=
  (items.filter validRow).map (fun it =>
    (rowReason it, ((c.terms.parseTimestamp (normalizeSpace it.name)).toOption).getD 0))

/-- Folds `upsertLatest` over a pair list (the per-reason
latest-timestamp map built by the timetable row loop). -/
def latestFold (acc : List (String × Int)) (pairs : List (String × Int)) :
    List (String × Int) :=
  pairs.foldl (fun m p => upsertLatest m p.1 p.2) acc

/-- The timestamps of the kept rows carrying a given reason. -/
def tsOfReason (r : String) (pairs : List (String × Int)) : List Int :=
  pairs.filterMap (fun p => if p.1 = r then some p.2 else none)

/-! ### Concrete fixtures for witnesses and counterexamples -/

/-- A concrete measurement parser (external collaborator) for the
witnesses. -/
def demoParseMeasurement (s : String) : Except String (ℚ × String) :=
  match alookup [("20 °C", ((20 : ℚ), "degC")), ("150", ((150 : ℚ), "")),
                 ("250", ((250 : ℚ), ""))] s with
  | some r => .ok r
  | none => .error "invalid measurement"

/-- A concrete timestamp parser mapping the spec's example rows to
their Unix seconds. -/
def demoParseTimestamp (s : String) : Except String Int :=
  match alookup [("02.02.11 08:00:00", (1296633600 : Int)),
                 ("03.04.14 23:00:00", (1396558800 : Int)),
                 ("01.01.10 09:00:11", (1262336411 : Int))] s with
  | some t => .ok t
  | none => .error "bad timestamp"

/-- A concrete terminology table for the witnesses. -/
def demoTerms : Terminology :=
  Terminology.mk "Off" "On"
    "system status" "type of heat pump" "software version" "operating mode"
    "heatcap" "powercons" "defrostdemand" "lastdefrost"
    "temperatures" "operating hours" "elapsed times" "inputs" "outputs"
    "heat quantity" "energy input" "error memory" "switch offs"
    [("heating", 1), ("off", 0)] none
    demoParseMeasurement (fun _ => .error "no duration")
    demoParseTimestamp (fun _ => .error "no short ts")

/-- The collector instance used by the witnesses. -/
def demoC : Collector := Collector.mk demoTerms

def c5Leaf : ContentItem := .mk "1" "X" (some "v") .nil
def c5Child : ContentItem := .mk "3" "sub" (some "w") .nil

/-- The later same-named node that does have children. -/
def c5DemoNode : ContentItem := .mk "2" "X" none (itemsOf [c5Child])

/-- A tree containing a childless node named "X" before a node named
"X" with children. -/
def c5DemoRoot : ContentRoot :=
  ContentRoot.mk "content" (itemsOf [c5Leaf, c5DemoNode])

/-- A content tree whose system-status group is missing while the
temperature group is present (for the failure-isolation example). -/
def c4Root : ContentRoot :=
  ContentRoot.mk "content"
    (itemsOf [ContentItem.mk "g1" "temperatures" none
      (itemsOf [ContentItem.mk "t" "t1" (some "20 °C") .nil])])

/-- The spec's timetable example rows plus an all-dash placeholder row
and a valueless row. -/
def c6Group : ContentItem :=
  ContentItem.mk "g" "tt" none
    (itemsOf [ContentItem.mk "r1" "02.02.11 08:00:00" (some "aaa") .nil,
              ContentItem.mk "r2" "03.04.14 23:00:00" (some "bbb") .nil,
              ContentItem.mk "r3" "01.01.10 09:00:11" (some "aaa") .nil,
              ContentItem.mk "r4" "----" (some "x") .nil,
              ContentItem.mk "r5" "02.02.11 08:00:00" none .nil])

def c6Root : ContentRoot := ContentRoot.mk "content" (itemsOf [c6Group])

/-- A system-status group whose operating mode is not a mapping key. -/
def c7Group : ContentItem :=
  ContentItem.mk "g" "system status" none
    (itemsOf [ContentItem.mk "m" "operating mode" (some "warp") .nil])

def c7Root : ContentRoot := ContentRoot.mk "content" (itemsOf [c7Group])

/-- A group that resolves but yields zero usable items: one valueless
child and one child whose value fails to parse. -/
def c8Group : ContentItem :=
  ContentItem.mk "g" "G8" none
    (itemsOf [ContentItem.mk "p" "row1" none .nil,
              ContentItem.mk "q" "row2" (some "zzz") .nil])

def c8Root : ContentRoot := ContentRoot.mk "content" (itemsOf [c8Group])

/-- A counter group whose only parsable item is below the stored
floor. -/
def c10Group : ContentItem :=
  ContentItem.mk "g" "G10" none
    (itemsOf [ContentItem.mk "a" "it" (some "150") .nil,
              ContentItem.mk "b" "row" none .nil])

def c10Root : ContentRoot := ContentRoot.mk "content" (itemsOf [c10Group])

/-- A transport state in the middle of a round trip: the handler slot
is occupied (reached from `newTransportState` by the first critical
section of `roundTrip`). -/
def c2Mid : TransportState :=
  match roundTripStart newTransportState 0 with
  | .installed st => st
  | .reject _ => newTransportState

/-- The state after `Close` ran while that round trip was still
outstanding: receiver terminated, terminal error fixed, handler of the
pending call still installed. -/
def c2AfterClose : TransportState := (transportClose c2Mid).2.1


/-- Decidable equality for `Except` results (used to evaluate the
embedded parsers in concrete witnesses). -/
instance exceptDecEq {e a : Type} [DecidableEq e] [DecidableEq a] :
    DecidableEq (Except e a)
  | .error x, .error y =>
    if h : x = y then .isTrue (by rw [h])
    else .isFalse (fun hh => h (Except.error.inj hh))
  | .error _, .ok _ => .isFalse (fun hh => Except.noConfusion hh)
  | .ok _, .error _ => .isFalse (fun hh => Except.noConfusion hh)
  | .ok x, .ok y =>
    if h : x = y then .isTrue (by rw [h])
    else .isFalse (fun hh => h (Except.ok.inj hh))

/-! ### Lemmas on whitespace normalization -/

theorem wordsAux_nil_nil : wordsAux [] [] = [] := rfl

theorem wordsAux_nil_cons (a : Char) (as : List Char) :
    wordsAux [] (a :: as) = [(a :: as).reverse] := rfl

theorem wordsAux_cons (c : Char) (rest acc : List Char) :
    wordsAux (c :: rest) acc =
      if isGoSpace c then
        match acc with
        | [] => wordsAux rest []
        | _ => acc.reverse :: wordsAux rest []
      else wordsAux rest (c :: acc) := rfl

theorem wordsAux_space_nil (c : Char) (rest : List Char) (hc : isGoSpace c = true) :
    wordsAux (c :: rest) [] = wordsAux rest [] := by
  rw [wordsAux_cons, hc]
  rfl

theorem wordsAux_space_cons (c : Char) (rest : List Char) (a : Char) (as : List Char)
    (hc : isGoSpace c = true) :
    wordsAux (c :: rest) (a :: as) = (a :: as).reverse :: wordsAux rest [] := by
  rw [wordsAux_cons, hc]
  rfl

theorem wordsAux_nospace (c : Char) (rest acc : List Char) (hc : isGoSpace c = false) :
    wordsAux (c :: rest) acc = wordsAux rest (c :: acc) := by
  rw [wordsAux_cons, hc]
  rfl

theorem collapseAux_nil (sp : Nat) : collapseAux sp [] = [] := rfl

theorem collapseAux_cons (sp : Nat) (c : Char) (rest : List Char) :
    collapseAux sp (c :: rest) =
      if isGoSpace c then collapseAux (sp + 1) rest
      else if sp > 1 then ' ' :: c :: collapseAux 0 rest
      else if sp == 1 then ' ' :: c :: collapseAux 0 rest
      else c :: collapseAux 0 rest := rfl

theorem collapseAux_space (sp : Nat) (c : Char) (rest : List Char)
    (hc : isGoSpace c = true) :
    collapseAux sp (c :: rest) = collapseAux (sp + 1) rest := by
  rw [collapseAux_cons, hc]
  rfl

theorem collapseAux_zero_nospace (c : Char) (rest : List Char)
    (hc : isGoSpace c = false) :
    collapseAux 0 (c :: rest) = c :: collapseAux 0 rest := by
  rw [collapseAux_cons, hc]
  rfl

theorem collapseAux_succ_nospace (sp : Nat) (c : Char) (rest : List Char)
    (hc : isGoSpace c = false) :
    collapseAux (sp + 1) (c :: rest) = ' ' :: c :: collapseAux 0 rest := by
  rw [collapseAux_cons, hc]
  simp only [Bool.false_eq_true, if_false]
  cases sp with
  | zero => norm_num
  | succ n => rw [if_pos (by omega)]

theorem joinWords_nil : joinWords [] = [] := rfl

theorem joinWords_one (w : List Char) : joinWords [w] = w := rfl

theorem joinWords_cons2 (w x : List Char) (xs : List (List Char)) :
    joinWords (w :: x :: xs) = w ++ ' ' :: joinWords (x :: xs) := rfl

theorem wordsAux_ne_nil : ∀ (l : List Char) (a : Char) (as : List Char),
    wordsAux l (a :: as) ≠ []
  | [], _, _ => by rw [wordsAux_nil_cons]; simp
  | c :: rest, a, as => by
    by_cases hc : isGoSpace c = true
    · rw [wordsAux_space_cons c rest a as hc]; simp
    · simp only [Bool.not_eq_true] at hc
      rw [wordsAux_nospace c rest (a :: as) hc]
      exact wordsAux_ne_nil rest c (a :: as)

theorem collapse_words (l : List Char) :
    (∀ sp : Nat, collapseAux (sp + 1) l =
       if (wsWords l).isEmpty then [] else ' ' :: joinWords (wsWords l)) ∧
    (∀ (a : Char) (as : List Char),
       joinWords (wordsAux l (a :: as)) = (a :: as).reverse ++ collapseAux 0 l) := by
  induction l with
  | nil =>
    constructor
    · intro sp
      rw [collapseAux_nil]
      simp [wsWords, wordsAux_nil_nil]
    · intro a as
      rw [wordsAux_nil_cons, joinWords_one, collapseAux_nil]
      simp
  | cons c rest ih =>
    by_cases hc : isGoSpace c = true
    · constructor
      · intro sp
        have h1 : wsWords (c :: rest) = wsWords rest := by
          simp only [wsWords]
          exact wordsAux_space_nil c rest hc
        rw [h1, collapseAux_space (sp + 1) c rest hc]
        exact ih.1 (sp + 1)
      · intro a as
        rw [wordsAux_space_cons c rest a as hc, collapseAux_space 0 c rest hc]
        rcases hw : wordsAux rest [] with _ | ⟨w, ws⟩
        · rw [joinWords_one]
          have := ih.1 0
          simp only [wsWords, hw] at this
          simp only [List.isEmpty_nil, if_true] at this
          rw [this]
          simp
        · rw [joinWords_cons2]
          have := ih.1 0
          simp only [wsWords, hw] at this
          simp only [List.isEmpty_cons, if_false] at this
          rw [this]
          simp
    · simp only [Bool.not_eq_true] at hc
      constructor
      · intro sp
        have h1 : wsWords (c :: rest) = wordsAux rest [c] := by
          simp only [wsWords]
          exact wordsAux_nospace c rest [] hc
        rw [h1, collapseAux_succ_nospace sp c rest hc]
        have hne : wordsAux rest [c] ≠ [] := wordsAux_ne_nil rest c []
        have hje : joinWords (wordsAux rest [c]) = [c].reverse ++ collapseAux 0 rest :=
          ih.2 c []
        rw [if_neg (by simpa [List.isEmpty_iff] using hne), hje]
        simp
      · intro a as
        rw [wordsAux_nospace c rest (a :: as) hc,
            collapseAux_zero_nospace c rest hc, ih.2 c (a :: as)]
        simp

theorem collapse_no_lead (l : List Char)
    (h : ∀ c, l.head? = some c → isGoSpace c = false) :
    collapseAux 0 l = joinWords (wsWords l) := by
  cases l with
  | nil => rfl
  | cons c rest =>
    have hc : isGoSpace c = false := h c rfl
    have h1 : wsWords (c :: rest) = wordsAux rest [c] := by
      simp only [wsWords]
      exact wordsAux_nospace c rest [] hc
    rw [h1, collapseAux_zero_nospace c rest hc, (collapse_words rest).2 c []]
    simp

theorem wsWords_trimLeft (l : List Char) : wsWords (trimLeftWs l) = wsWords l := by
  induction l with
  | nil => rfl
  | cons c rest ih =>
    by_cases hc : isGoSpace c = true
    · have h1 : trimLeftWs (c :: rest) = trimLeftWs rest := by
        simp [trimLeftWs, List.dropWhile_cons, hc]
      have h2 : wsWords (c :: rest) = wsWords rest := by
        simp only [wsWords]
        exact wordsAux_space_nil c rest hc
      rw [h1, h2, ih]
    · simp only [Bool.not_eq_true] at hc
      have h1 : trimLeftWs (c :: rest) = c :: rest := by
        simp [trimLeftWs, List.dropWhile_cons, hc]
      rw [h1]

theorem wordsAux_spaces (sps : List Char) (hs : ∀ c ∈ sps, isGoSpace c = true) :
    ∀ acc : List Char, wordsAux sps acc = wordsAux [] acc := by
  induction sps with
  | nil => intro acc; rfl
  | cons s rest ih =>
    intro acc
    have hsp : isGoSpace s = true := hs s (by simp)
    have ih' : ∀ acc, wordsAux rest acc = wordsAux [] acc :=
      ih (fun c hc => hs c (by simp [hc]))
    cases acc with
    | nil => rw [wordsAux_space_nil s rest hsp, ih' []]
    | cons a as =>
      rw [wordsAux_space_cons s rest a as hsp, ih' [], wordsAux_nil_nil,
          wordsAux_nil_cons]

theorem wordsAux_append_spaces (sps : List Char) (hs : ∀ c ∈ sps, isGoSpace c = true) :
    ∀ (m : List Char) (acc : List Char), wordsAux (m ++ sps) acc = wordsAux m acc := by
  intro m
  induction m with
  | nil =>
    intro acc
    simpa using wordsAux_spaces sps hs acc
  | cons c rest ih =>
    intro acc
    by_cases hc : isGoSpace c = true
    · cases acc with
      | nil =>
        rw [List.cons_append, wordsAux_space_nil _ _ hc, wordsAux_space_nil _ _ hc, ih]
      | cons a as =>
        rw [List.cons_append, wordsAux_space_cons _ _ _ _ hc,
            wordsAux_space_cons _ _ _ _ hc, ih]
    · simp only [Bool.not_eq_true] at hc
      rw [List.cons_append, wordsAux_nospace _ _ _ hc, wordsAux_nospace _ _ _ hc, ih]

theorem trimRight_decomp (l : List Char) :
    (∀ c ∈ (l.reverse.takeWhile isGoSpace).reverse, isGoSpace c = true) ∧
    l = trimRightWs l ++ (l.reverse.takeWhile isGoSpace).reverse := by
  constructor
  · intro c hc
    rw [List.mem_reverse] at hc
    exact List.mem_takeWhile_imp hc
  · have h := List.takeWhile_append_dropWhile (p := isGoSpace) (l := l.reverse)
    calc l = l.reverse.reverse := by simp
    _ = (l.reverse.takeWhile isGoSpace ++ l.reverse.dropWhile isGoSpace).reverse := by
        rw [h]
    _ = trimRightWs l ++ (l.reverse.takeWhile isGoSpace).reverse := by
        rw [List.reverse_append]; rfl

theorem head_trimLeft_not_space (l : List Char) :
    ∀ c, (trimLeftWs l).head? = some c → isGoSpace c = false := by
  induction l with
  | nil => intro c hc; simp [trimLeftWs] at hc
  | cons a rest ih =>
    intro c hc
    by_cases ha : isGoSpace a = true
    · have h1 : trimLeftWs (a :: rest) = trimLeftWs rest := by
        simp [trimLeftWs, List.dropWhile_cons, ha]
      rw [h1] at hc
      exact ih c hc
    · simp only [Bool.not_eq_true] at ha
      have h1 : trimLeftWs (a :: rest) = a :: rest := by
        simp [trimLeftWs, List.dropWhile_cons, ha]
      rw [h1] at hc
      simp at hc
      rwa [← hc]

theorem head_trimRight (l : List Char) :
    ∀ c, (trimRightWs l).head? = some c → l.head? = some c := by
  intro c hc
  have hd := (trimRight_decomp l).2
  rcases htr : trimRightWs l with _ | ⟨x, xs⟩
  · rw [htr] at hc; simp at hc
  · rw [htr] at hc hd
    simp at hc
    rw [hd]
    simp [hc]

theorem trim_words (l : List Char) : wsWords (goTrimSpaceList l) = wsWords l := by
  have h1 := trimRight_decomp (trimLeftWs l)
  have h2 : wsWords (trimRightWs (trimLeftWs l)) = wsWords (trimLeftWs l) := by
    conv_rhs => rw [h1.2]
    exact (wordsAux_append_spaces _ h1.1 (trimRightWs (trimLeftWs l)) []).symm
  calc wsWords (goTrimSpaceList l) = wsWords (trimRightWs (trimLeftWs l)) := rfl
  _ = wsWords (trimLeftWs l) := h2
  _ = wsWords l := wsWords_trimLeft l

/-- Claim C9: `normalizeSpace` collapses every run of Unicode
whitespace to a single ASCII space and trims leading and trailing
whitespace, for every input string (it agrees everywhere with the
words-rejoined specification `normalizeSpaceSpec`); in particular any
all-whitespace or empty input maps to the empty string, and
"  -   foo   -   bar   - " maps to "- foo - bar -". -/
theorem c9_normalizeSpace_correct :
    (∀ s : String, normalizeSpace s = normalizeSpaceSpec s) ∧
    normalizeSpace "  -   foo   -   bar   - " = "- foo - bar -" ∧
    normalizeSpace "   " = "" ∧
    normalizeSpace "\t\n\t" = "" ∧
    normalizeSpace "" = "" := by
  refine ⟨?_, by decide, by decide, by decide, by decide⟩
  intro s
  by_cases hs : s = ""
  · subst hs; decide
  · rw [normalizeSpace, if_neg hs, normalizeSpaceSpec]
    have hhead : ∀ c, (goTrimSpaceList s.data).head? = some c → isGoSpace c = false :=
      fun c hc => head_trimLeft_not_space s.data c (head_trimRight (trimLeftWs s.data) c hc)
    rw [collapse_no_lead (goTrimSpaceList s.data) hhead, trim_words]

/-! ### Lemmas on content tree resolution -/

theorem findAppend {α : Type} (p : α → Bool) :
    ∀ l₁ l₂ : List α, (l₁ ++ l₂).find? p =
      match l₁.find? p with
      | some x => some x
      | none => l₂.find? p
  | [], _ => by simp [List.find?]
  | a :: l₁, l₂ => by
    by_cases h : p a = true
    · simp [List.find?, h]
    · simp only [Bool.not_eq_true] at h
      simp [List.find?, h, findAppend p l₁ l₂]

mutual

theorem findItemList_eq (cmp : ContentItem → Bool) :
    (l : ContentItemList) → findItemList cmp l = (preorderList l).find? cmp
  | .nil => rfl
  | .cons i rest => by
    rw [findItemList, preorderList, findItemInside_eq cmp i, findItemList_eq cmp rest]
    by_cases h : cmp i = true
    · simp [List.find?, h]
    · simp only [Bool.not_eq_true] at h
      simp only [List.find?, h, Bool.false_eq_true, if_false, findAppend]
      cases (preorderInside i).find? cmp <;> simp

theorem findItemInside_eq (cmp : ContentItem → Bool) :
    (i : ContentItem) → findItemInside cmp i = (preorderInside i).find? cmp
  | .mk a b v items => by
    rw [findItemInside, preorderInside, findItemList_eq cmp items]

end

/-- Claim C5: `FindByName` traverses the content tree depth-first in
pre-order (children in document order) and returns the first item
satisfying the predicate, or the not-found error when none does; in
particular, on a tree containing a childless node named "X" before a
node named "X" with children, resolution with `CmpNameAndItems "X"`
skips the childless node and returns the node with children. -/
theorem c5_findByName_preorder :
    (∀ (r : ContentRoot) (cmp : ContentItem → Bool),
       contentFindByName r cmp =
         match (preorderList r.items).find? cmp with
         | some itm => Except.ok itm
         | none => Except.error "content item not found") ∧
    contentFindByName c5DemoRoot (cmpNameAndItems "X") = .ok c5DemoNode := by
  constructor
  · intro r cmp
    rw [contentFindByName, findItemList_eq]
  · rfl

/-! ### Transport claims -/

/-- Claim C2, counterexample: the claim as stated is false.  A session
state with an installed handler but a terminated receiver is reachable
(install a handler via the first critical section of `roundTrip`, then
run `Close` while that round trip is outstanding); a `RoundTrip` on
that state returns the terminal closed error, not the busy error. -/
theorem c2_busy_counterexample :
    c2AfterClose.handler = some 0 ∧
    (roundTrip c2AfterClose 1 none .ctxDone).1 = some TErr.closed ∧
    (roundTrip c2AfterClose 1 none .ctxDone).1 ≠ some TErr.busy := by
  decide

/-- Claim C2 (amended): a transport session has at most one installed
response handler (the single `handler` slot); a `RoundTrip` call made
while another handler is installed and the receiver loop has not
terminated returns the busy error immediately, without writing the
request to the socket and leaving the installed handler in place; if
the receiver has terminated it instead returns the terminal error,
likewise without writing and leaving the handler in place. -/
theorem c2_busy_rejection (st : TransportState) (h0 h : Nat) (w : Option TErr)
    (o : RTEvent) (hh : st.handler = some h0) :
    roundTrip st h w o =
      ((if st.recvDone then st.recvErr else some TErr.busy), st, []) := by
  unfold roundTrip roundTripStart
  rw [hh]
  by_cases hd : st.recvDone <;> simp [hd]

/-- Witness for claim C2's theorem at a concrete busy state. -/
theorem c2_busy_rejection_witness :
    (TransportState.mk false false none (some 0)).handler = some 0 ∧
    roundTrip (TransportState.mk false false none (some 0)) 1 none .ctxDone =
      (some TErr.busy, TransportState.mk false false none (some 0), []) := by
  refine ⟨rfl, ?_⟩
  have h := c2_busy_rejection (TransportState.mk false false none (some 0)) 0 1 none
    .ctxDone rfl
  simpa using h

/-- Claim C3: after a successful `Close` the terminal error is fixed
to the closed error; every subsequent `RoundTrip` (any handler, any
write result, any select outcome) returns the closed error, a pending
`RoundTrip` woken by the receiver termination completes with the
closed error, and a second `Close` returns the closed error without
waiting for the receiver again. -/
theorem c3_close_terminal (st : TransportState) (hopen : st.socketClosed = false) :
    (transportClose st).1 = none ∧
    (transportClose st).2.2 = true ∧
    (transportClose st).2.1.recvErr = some TErr.closed ∧
    (∀ (h : Nat) (w : Option TErr) (o : RTEvent),
       (roundTrip (transportClose st).2.1 h w o).1 = some TErr.closed) ∧
    (roundTripWait (transportClose st).2.1 .recvTerminated).1 = some TErr.closed ∧
    transportClose (transportClose st).2.1 =
      (some TErr.closed, (transportClose st).2.1, false) := by
  have hc : transportClose st =
      (none, TransportState.mk true true (some TErr.closed) st.handler, true) := by
    simp [transportClose, hopen]
  refine ⟨by rw [hc], by rw [hc], by rw [hc], ?_, ?_, by rw [hc]; rfl⟩
  · intro h w o
    rw [hc]
    rfl
  · rw [hc]
    rfl

/-- Witness for claim C3's theorem at the freshly-opened transport
state. -/
theorem c3_close_terminal_witness :
    newTransportState.socketClosed = false ∧
    (transportClose newTransportState).1 = none ∧
    (roundTrip (transportClose newTransportState).2.1 7 none (.handlerDone none)).1 =
      some TErr.closed ∧
    transportClose (transportClose newTransportState).2.1 =
      (some TErr.closed, (transportClose newTransportState).2.1, false) := by
  have h := c3_close_terminal newTransportState rfl
  exact ⟨rfl, h.1, h.2.2.2.1 7 none (.handlerDone none), h.2.2.2.2.2⟩

/-! ### Lemmas on the counter floor map -/

theorem floorGet_floorSet_eq (m : Floors) (k : String) (v : ℚ) :
    floorGet (floorSet m k v) k = v := by
  induction m with
  | nil => simp [floorSet, floorGet]
  | cons p rest ih =>
    by_cases h : p.1 = k
    · simp [floorSet, floorGet, h]
    · simp [floorSet, floorGet, h, ih]

theorem floorGet_floorSet_ne (m : Floors) (k : String) (v : ℚ) (k' : String)
    (h : k' ≠ k) :
    floorGet (floorSet m k v) k' = floorGet m k' := by
  induction m with
  | nil =>
    have : ¬(k = k') := fun he => h he.symm
    simp [floorSet, floorGet, this]
  | cons p rest ih =>
    by_cases hp : p.1 = k
    · have h2 : ¬(k = k') := fun he => h he.symm
      simp [floorSet, floorGet, hp, h2]
    · by_cases hp2 : p.1 = k'
      · simp only [floorSet, floorGet]
        rw [if_neg hp]
        simp [floorGet, hp2]
      · simp only [floorSet, floorGet]
        rw [if_neg hp]
        simp [floorGet, hp2, ih]

theorem measStep_fl_mono (c : Collector) (desc groupName : String) (vt : ValueType)
    (opts : CollectOptions) (acc : MeasAcc) (item : ContentItem) (k : String) :
    floorGet acc.fl k ≤ floorGet (measStep c desc groupName vt opts acc item).fl k := by
  by_cases ha : allowedB opts item.name = true
  · rcases hp : parseValue c (item.value.getD "") with e | ⟨v, u⟩
    · simp [measStep, ha, hp]
    · cases vt with
      | gauge => simp [measStep, ha, hp]
      | counter =>
        by_cases hf : floorGet acc.fl (counterMapKey groupName item.name .counter) ≤ v
        · simp only [measStep, ha, Bool.not_true, Bool.false_eq_true, if_false, hp, hf,
            if_true]
          by_cases hk : k = counterMapKey groupName item.name .counter
          · subst hk
            rw [floorGet_floorSet_eq]
            exact hf
          · rw [floorGet_floorSet_ne _ _ _ _ hk]
        · simp [measStep, ha, hp, hf]
  · simp only [Bool.not_eq_true] at ha
    simp [measStep, ha]

theorem foldl_measStep_fl_mono (c : Collector) (desc groupName : String)
    (vt : ValueType) (opts : CollectOptions) :
    ∀ (items : List ContentItem) (acc : MeasAcc) (k : String),
      floorGet acc.fl k ≤
        floorGet ((items.foldl (measStep c desc groupName vt opts) acc)).fl k := by
  intro items
  induction items with
  | nil => intro acc k; exact le_refl _
  | cons it rest ih =>
    intro acc k
    calc floorGet acc.fl k
        ≤ floorGet (measStep c desc groupName vt opts acc it).fl k :=
          measStep_fl_mono c desc groupName vt opts acc it k
    _ ≤ _ := ih (measStep c desc groupName vt opts acc it) k

theorem collectMeasurements_fl_mono (c : Collector) (desc : String)
    (content : ContentRoot) (groupName : String) (vt : ValueType)
    (opts : CollectOptions) (fl : Floors) (k : String) :
    floorGet fl k ≤
      floorGet (collectMeasurements c desc content groupName vt opts fl).2.2.2 k := by
  rcases hf : contentFindByName content (cmpOf opts groupName) with e | group
  · simp [collectMeasurements, hf]
  · have h := foldl_measStep_fl_mono c desc groupName vt opts (group.eachNonNil)
      (MeasAcc.mk fl [] [] false) k
    by_cases hfound :
        ((group.eachNonNil).foldl (measStep c desc groupName vt opts)
          (MeasAcc.mk fl [] [] false)).found = true
    · simpa [collectMeasurements, hf, hfound] using h
    · simp only [Bool.not_eq_true] at hfound
      simpa [collectMeasurements, hf, hfound] using h

theorem runMeasCalls_fl_mono (c : Collector) :
    ∀ (calls : List MeasCall) (fl : Floors) (k : String),
      floorGet fl k ≤ floorGet (runMeasCalls c calls fl) k := by
  intro calls
  induction calls with
  | nil => intro fl k; exact le_refl _
  | cons a rest ih =>
    intro fl k
    calc floorGet fl k
        ≤ floorGet (collectMeasurements c a.desc a.content a.groupName a.vt a.opts fl).2.2.2 k :=
          collectMeasurements_fl_mono c a.desc a.content a.groupName a.vt a.opts fl k
    _ ≤ _ := ih _ k

/-- Claim C1: the stored counter floor for every key never decreases
across any sequence of `collectMeasurements` calls; processing one
item with counter value type, a parsed value strictly below the
current floor yields no emitted sample (only a diagnostic log) and
leaves the floor map unchanged, while a parsed value at or above the
floor is emitted as a sample and becomes the new floor. -/
theorem c1_counter_floor (c : Collector) (desc groupName : String)
    (opts : CollectOptions) (item : ContentItem) (fl : Floors)
    (samples : List Sample) (logs : List String) (found : Bool) (v : ℚ) (u : String)
    (hallow : allowedB opts item.name = true)
    (hparse : parseValue c (item.value.getD "") = .ok (v, u)) :
    (v < floorGet fl (counterMapKey groupName item.name .counter) →
       measStep c desc groupName .counter opts (MeasAcc.mk fl samples logs found) item =
         MeasAcc.mk fl samples
           (logs ++ ["skipping decreasing counter value " ++
             counterMapKey groupName item.name .counter]) true) ∧
    (floorGet fl (counterMapKey groupName item.name .counter) ≤ v →
       measStep c desc groupName .counter opts (MeasAcc.mk fl samples logs found) item =
         MeasAcc.mk (floorSet fl (counterMapKey groupName item.name .counter) v)
           (samples ++ [Sample.mk desc .counter v [normalizeSpace item.name, u]])
           logs true) ∧
    (∀ (content : ContentRoot) (vt : ValueType) (k : String),
       floorGet fl k ≤
         floorGet (collectMeasurements c desc content groupName vt opts fl).2.2.2 k) ∧
    (∀ (calls : List MeasCall) (k : String),
       floorGet fl k ≤ floorGet (runMeasCalls c calls fl) k) := by
  refine ⟨?_, ?_, ?_, ?_⟩
  · intro hlt
    have hnle : ¬(floorGet fl (counterMapKey groupName item.name .counter) ≤ v) :=
      not_le_of_lt hlt
    simp [measStep, hallow, hparse, hnle]
  · intro hle
    simp [measStep, hallow, hparse, hle]
  · intro content vt k
    exact collectMeasurements_fl_mono c desc content groupName vt opts fl k
  · intro calls k
    exact runMeasCalls_fl_mono c calls fl k

/-- Witness for claim C1's theorem: with floor 200 stored for the key,
a raw value of 150 is suppressed leaving the floor at 200, and a raw
value of 250 is emitted and advances the floor to 250. -/
theorem c1_counter_floor_witness :
    allowedB (CollectOptions.mk none none) "it" = true ∧
    parseValue demoC "150" = .ok (150, "") ∧
    (150 : ℚ) < floorGet [("G_it_COUNTER", 200)] "G_it_COUNTER" ∧
    measStep demoC "d" "G" .counter (CollectOptions.mk none none)
      (MeasAcc.mk [("G_it_COUNTER", 200)] [] [] false)
      (ContentItem.mk "i" "it" (some "150") .nil) =
      MeasAcc.mk [("G_it_COUNTER", 200)] []
        ["skipping decreasing counter value G_it_COUNTER"] true ∧
    measStep demoC "d" "G" .counter (CollectOptions.mk none none)
      (MeasAcc.mk [("G_it_COUNTER", 200)] [] [] false)
      (ContentItem.mk "i2" "it" (some "250") .nil) =
      MeasAcc.mk [("G_it_COUNTER", 250)]
        [Sample.mk "d" .counter 250 ["it", ""]] [] true ∧
    floorGet [("G_it_COUNTER", 250)] "G_it_COUNTER" = 250 := by
  have h150 := c1_counter_floor demoC "d" "G" (CollectOptions.mk none none)
    (ContentItem.mk "i" "it" (some "150") .nil) [("G_it_COUNTER", 200)] [] [] false
    150 "" (by decide) (by decide)
  have h250 := c1_counter_floor demoC "d" "G" (CollectOptions.mk none none)
    (ContentItem.mk "i2" "it" (some "250") .nil) [("G_it_COUNTER", 200)] [] [] false
    250 "" (by decide) (by decide)
  refine ⟨by decide, by decide, by decide, ?_, ?_, by decide⟩
  · have := h150.1 (by decide)
    simpa using this
  · have := h250.2.1 (by decide)
    simpa using this

/-! ### Lemmas on skipped, suppressed and found items -/

theorem foldl_measStep_skip (c : Collector) (desc groupName : String)
    (vt : ValueType) (opts : CollectOptions) :
    ∀ (items : List ContentItem) (acc : MeasAcc),
      (∀ it ∈ items, allowedB opts it.name = false ∨
        (parseValue c (it.value.getD "")).toOption = none) →
      ∃ lg, items.foldl (measStep c desc groupName vt opts) acc =
        MeasAcc.mk acc.fl acc.samples (acc.logs ++ lg) acc.found := by
  intro items
  induction items with
  | nil =>
    intro acc hskip
    exact ⟨[], by simp⟩
  | cons x rest ih =>
    intro acc hskip
    rcases hskip x (by simp) with hx | hx
    · have hstep : measStep c desc groupName vt opts acc x = acc := by
        simp [measStep, hx]
      rcases ih acc (fun it hit => hskip it (by simp [hit])) with ⟨lg, hlg⟩
      exact ⟨lg, by simpa [hstep] using hlg⟩
    · rcases hp : parseValue c (x.value.getD "") with e | p
      · by_cases ha : allowedB opts x.name = true
        · have hstep : measStep c desc groupName vt opts acc x =
              MeasAcc.mk acc.fl acc.samples
                (acc.logs ++ ["parseValue failed: " ++ e]) acc.found := by
            simp [measStep, ha, hp]
          rcases ih (MeasAcc.mk acc.fl acc.samples
              (acc.logs ++ ["parseValue failed: " ++ e]) acc.found)
              (fun it hit => hskip it (by simp [hit])) with ⟨lg, hlg⟩
          refine ⟨["parseValue failed: " ++ e] ++ lg, ?_⟩
          rw [List.foldl_cons, hstep, hlg]
          simp
        · simp only [Bool.not_eq_true] at ha
          have hstep : measStep c desc groupName vt opts acc x = acc := by
            simp [measStep, ha]
          rcases ih acc (fun it hit => hskip it (by simp [hit])) with ⟨lg, hlg⟩
          exact ⟨lg, by simpa [hstep] using hlg⟩
      · rw [hp] at hx
        simp [Except.toOption] at hx

theorem measStep_found_persist (c : Collector) (desc groupName : String)
    (vt : ValueType) (opts : CollectOptions) (acc : MeasAcc) (item : ContentItem)
    (h : acc.found = true) :
    (measStep c desc groupName vt opts acc item).found = true := by
  by_cases ha : allowedB opts item.name = true
  · rcases hp : parseValue c (item.value.getD "") with e | ⟨v, u⟩
    · simp [measStep, ha, hp, h]
    · cases vt with
      | gauge => simp [measStep, ha, hp]
      | counter =>
        by_cases hf : floorGet acc.fl (counterMapKey groupName item.name .counter) ≤ v
        · simp [measStep, ha, hp, hf]
        · simp [measStep, ha, hp, hf]
  · simp only [Bool.not_eq_true] at ha
    simp [measStep, ha, h]

theorem foldl_measStep_found_persist (c : Collector) (desc groupName : String)
    (vt : ValueType) (opts : CollectOptions) :
    ∀ (items : List ContentItem) (acc : MeasAcc), acc.found = true →
      ((items.foldl (measStep c desc groupName vt opts) acc)).found = true := by
  intro items
  induction items with
  | nil => intro acc h; exact h
  | cons x rest ih =>
    intro acc h
    exact ih _ (measStep_found_persist c desc groupName vt opts acc x h)

theorem measStep_counter_found (c : Collector) (desc groupName : String)
    (opts : CollectOptions) (acc : MeasAcc) (item : ContentItem) (p : ℚ × String)
    (ha : allowedB opts item.name = true)
    (hp : parseValue c (item.value.getD "") = .ok p) :
    (measStep c desc groupName .counter opts acc item).found = true := by
  by_cases hf : floorGet acc.fl (counterMapKey groupName item.name .counter) ≤ p.1
  · simp [measStep, ha, hp, hf]
  · simp [measStep, ha, hp, hf]

theorem foldl_measStep_found_mem (c : Collector) (desc groupName : String)
    (opts : CollectOptions) :
    ∀ (items : List ContentItem) (acc : MeasAcc) (it : ContentItem),
      it ∈ items → allowedB opts it.name = true →
      (parseValue c (it.value.getD "")).toOption.isSome = true →
      ((items.foldl (measStep c desc groupName .counter opts) acc)).found = true := by
  intro items
  induction items with
  | nil => intro acc it hmem; simp at hmem
  | cons x rest ih =>
    intro acc it hmem ha hsome
    rcases List.mem_cons.mp hmem with heq | hmem2
    · subst heq
      rcases hp : parseValue c (it.value.getD "") with e | p
      · rw [hp] at hsome; simp [Except.toOption] at hsome
      · exact foldl_measStep_found_persist c desc groupName .counter opts rest _
          (measStep_counter_found c desc groupName opts acc it p ha hp)
    · exact ih _ it hmem2 ha hsome

theorem foldl_measStep_suppress (c : Collector) (desc groupName : String)
    (opts : CollectOptions) (fl : Floors) :
    ∀ (items : List ContentItem) (samples : List Sample) (logs : List String)
      (found : Bool),
      (∀ it ∈ items, allowedB opts it.name = true →
        (match parseValue c (it.value.getD "") with
         | .ok p => p.1 < floorGet fl (counterMapKey groupName it.name .counter)
         | .error _ => True)) →
      ((items.foldl (measStep c desc groupName .counter opts)
        (MeasAcc.mk fl samples logs found))).fl = fl ∧
      ((items.foldl (measStep c desc groupName .counter opts)
        (MeasAcc.mk fl samples logs found))).samples = samples := by
  intro items
  induction items with
  | nil => intro samples logs found hall; exact ⟨rfl, rfl⟩
  | cons x rest ih =>
    intro samples logs found hall
    by_cases ha : allowedB opts x.name = true
    · rcases hp : parseValue c (x.value.getD "") with e | p
      · have hstep : measStep c desc groupName .counter opts
            (MeasAcc.mk fl samples logs found) x =
            MeasAcc.mk fl samples (logs ++ ["parseValue failed: " ++ e]) found := by
          simp [measStep, ha, hp]
        rw [List.foldl_cons, hstep]
        exact ih samples (logs ++ ["parseValue failed: " ++ e]) found
          (fun it hit => hall it (by simp [hit]))
      · have hlt := hall x (by simp) ha
        rw [hp] at hlt
        simp only at hlt
        have hnle : ¬(floorGet fl (counterMapKey groupName x.name .counter) ≤ p.1) :=
          not_le_of_lt hlt
        have hstep : measStep c desc groupName .counter opts
            (MeasAcc.mk fl samples logs found) x =
            MeasAcc.mk fl samples
              (logs ++ ["skipping decreasing counter value " ++
                counterMapKey groupName x.name .counter]) true := by
          rcases p with ⟨v, u⟩
          simp [measStep, ha, hp, hnle]
        rw [List.foldl_cons, hstep]
        exact ih samples _ true (fun it hit => hall it (by simp [hit]))
    · simp only [Bool.not_eq_true] at ha
      have hstep : measStep c desc groupName .counter opts
          (MeasAcc.mk fl samples logs found) x = MeasAcc.mk fl samples logs found := by
        simp [measStep, ha]
      rw [List.foldl_cons, hstep]
      exact ih samples logs found (fun it hit => hall it (by simp [hit]))

/-- Claim C8: a measurement group that resolves but yields zero usable
items (every non-nil child is either filtered out or fails to parse)
makes `collectMeasurements` emit exactly one sample with empty name,
empty unit and value 0 and no error, leaving the floor map unchanged;
a group that fails to resolve is an error for the step. -/
theorem c8_empty_group (c : Collector) (desc : String) (content : ContentRoot)
    (groupName : String) (vt : ValueType) (opts : CollectOptions) (fl : Floors) :
    (∀ e, contentFindByName content (cmpOf opts groupName) = .error e →
       collectMeasurements c desc content groupName vt opts fl =
         ([], [],
          some ("collectMeasurements.content.FindByName " ++ groupName ++
            " failed: " ++ e), fl)) ∧
    (∀ group, contentFindByName content (cmpOf opts groupName) = .ok group →
       (∀ it ∈ group.eachNonNil, allowedB opts it.name = false ∨
          (parseValue c (it.value.getD "")).toOption = none) →
       (collectMeasurements c desc content groupName vt opts fl).1 =
         [Sample.mk desc vt 0 ["", ""]] ∧
       (collectMeasurements c desc content groupName vt opts fl).2.2.1 = none ∧
       (collectMeasurements c desc content groupName vt opts fl).2.2.2 = fl) := by
  constructor
  · intro e he
    simp [collectMeasurements, he]
  · intro group hg hskip
    rcases foldl_measStep_skip c desc groupName vt opts (group.eachNonNil)
      (MeasAcc.mk fl [] [] false) hskip with ⟨lg, hlg⟩
    have hfound : ((group.eachNonNil).foldl (measStep c desc groupName vt opts)
        (MeasAcc.mk fl [] [] false)).found = false := by
      rw [hlg]
    refine ⟨?_, ?_, ?_⟩ <;> simp [collectMeasurements, hg, hlg]

/-- Witness for claim C8's theorem: a group with one valueless child
and one unparsable child yields exactly the placeholder sample; a
missing group yields the step error. -/
theorem c8_empty_group_witness :
    (collectMeasurements demoC "d" c8Root "G8" .gauge (CollectOptions.mk none none)
      []).1 = [Sample.mk "d" .gauge 0 ["", ""]] ∧
    (collectMeasurements demoC "d" c8Root "G8" .gauge (CollectOptions.mk none none)
      []).2.2.1 = none ∧
    collectMeasurements demoC "d" c8Root "nope" .gauge (CollectOptions.mk none none)
      [] =
      ([], [],
       some "collectMeasurements.content.FindByName nope failed: content item not found",
       []) := by
  have h := c8_empty_group demoC "d" c8Root "G8" .gauge (CollectOptions.mk none none) []
  have hb := h.2 c8Group rfl (by decide)
  have h2 := c8_empty_group demoC "d" c8Root "nope" .gauge (CollectOptions.mk none none) []
  have ha := h2.1 "content item not found" rfl
  exact ⟨hb.1, hb.2.1, ha⟩

/-- Claim C10: when a counter-type group resolves and every
filter-passing, successfully-parsing non-nil item is strictly below
its stored floor (and at least one such item exists), the step emits
no sample at all: the suppressed items are not emitted and the
"present but empty" placeholder is not emitted either, because
suppressed items still count as found; the floor map is unchanged. -/
theorem c10_all_suppressed (c : Collector) (desc : String) (content : ContentRoot)
    (groupName : String) (opts : CollectOptions) (fl : Floors) (group : ContentItem)
    (hfind : contentFindByName content (cmpOf opts groupName) = .ok group)
    (hall : ∀ it ∈ group.eachNonNil, allowedB opts it.name = true →
       (match parseValue c (it.value.getD "") with
        | .ok p => p.1 < floorGet fl (counterMapKey groupName it.name .counter)
        | .error _ => True))
    (hex : ∃ it ∈ group.eachNonNil, allowedB opts it.name = true ∧
       (parseValue c (it.value.getD "")).toOption.isSome = true) :
    (collectMeasurements c desc content groupName .counter opts fl).1 = [] ∧
    (collectMeasurements c desc content groupName .counter opts fl).2.2.2 = fl := by
  rcases hex with ⟨it, hmem, ha, hsome⟩
  have hfound : ((group.eachNonNil).foldl (measStep c desc groupName .counter opts)
      (MeasAcc.mk fl [] [] false)).found = true :=
    foldl_measStep_found_mem c desc groupName opts (group.eachNonNil)
      (MeasAcc.mk fl [] [] false) it hmem ha hsome
  have hsup := foldl_measStep_suppress c desc groupName opts fl (group.eachNonNil)
    [] [] false hall
  constructor
  · simp [collectMeasurements, hfind, hfound, hsup.2]
  · simp [collectMeasurements, hfind, hfound, hsup.1]

/-- Witness for claim C10's theorem: floor 200 stored, the only
parsable item has value 150; no sample is emitted and the floor map is
unchanged. -/
theorem c10_all_suppressed_witness :
    (collectMeasurements demoC "d" c10Root "G10" .counter (CollectOptions.mk none none)
      [("G10_it_COUNTER", 200)]).1 = [] ∧
    (collectMeasurements demoC "d" c10Root "G10" .counter (CollectOptions.mk none none)
      [("G10_it_COUNTER", 200)]).2.2.2 = [("G10_it_COUNTER", 200)] := by
  refine c10_all_suppressed demoC "d" c10Root "G10" (CollectOptions.mk none none)
    [("G10_it_COUNTER", 200)] c10Group rfl ?_ (by decide)
  intro it hit ha
  have hl : c10Group.eachNonNil =
      [ContentItem.mk "a" "it" (some "150") ContentItemList.nil] := rfl
  rw [hl] at hit
  have heq := List.mem_singleton.mp hit
  subst heq
  have hp : parseValue demoC
      ((ContentItem.mk "a" "it" (some "150") ContentItemList.nil).value.getD "") =
      .ok ((150 : ℚ), "") := by decide
  rw [hp]
  decide

/-! ### Lemmas on the step pipeline -/

theorem collectAllAux_runSteps (c : Collector) (content : ContentRoot) :
    ∀ (fs : List StepFn) (st : ScrapeState) (samples : List Sample)
      (logs errs : List String),
      collectAllAux c content fs st samples logs errs =
        (samples ++ ((runSteps c content fs st).1.map (fun o => o.1)).flatten,
         logs ++ ((runSteps c content fs st).1.map (fun o => o.2.1)).flatten,
         errs ++ (runSteps c content fs st).1.filterMap (fun o => o.2.2),
         (runSteps c content fs st).2) := by
  intro fs
  induction fs with
  | nil =>
    intro st samples logs errs
    simp [collectAllAux, runSteps]
  | cons f fs ih =>
    intro st samples logs errs
    simp only [collectAllAux, runSteps, ih]
    rcases hr : f c content st with ⟨⟨s, lg, er⟩, st2⟩
    cases er <;> simp [List.filterMap_cons, Option.toList]

theorem runSteps_length (c : Collector) (content : ContentRoot) :
    ∀ (fs : List StepFn) (st : ScrapeState),
      (runSteps c content fs st).1.length = fs.length := by
  intro fs
  induction fs with
  | nil => intro st; rfl
  | cons f fs ih => intro st; simp [runSteps, ih]

/-- Claim C4: `collectAll` runs every step of the fixed list in order
against the same content tree even when some steps fail: its emitted
samples are exactly the concatenation of the per-step samples (each
step run against the state left by its predecessors), its aggregated
error collects exactly the errors of all failing steps in order, and
all 11 steps always run; concretely, on a tree whose system-status
group is missing but whose temperature group is present, the scrape
error is non-empty while the temperature sample is still emitted. -/
theorem c4_failure_isolation (c : Collector) (content : ContentRoot) (fl : Floors) :
    ((collectAll c content fl).1 =
       ((runSteps c content allSteps (ScrapeState.mk (Quirks.mk false) fl)).1.map
         (fun o => o.1)).flatten ∧
     (collectAll c content fl).2.2.1 =
       (runSteps c content allSteps (ScrapeState.mk (Quirks.mk false) fl)).1.filterMap
         (fun o => o.2.2) ∧
     (runSteps c content allSteps (ScrapeState.mk (Quirks.mk false) fl)).1.length = 11) ∧
    ((collectAll demoC c4Root []).2.2.1 ≠ [] ∧
     Sample.mk temperatureDesc .gauge 20 ["t1", "degC"] ∈ (collectAll demoC c4Root []).1) := by
  refine ⟨⟨?_, ?_, ?_⟩, by decide, by decide⟩
  · rw [collectAll, collectAllAux_runSteps]
    simp
  · rw [collectAll, collectAllAux_runSteps]
    simp
  · rw [runSteps_length]
    rfl

/-- Claim C7: when the system-status group resolves but the
normalized, lower-cased operating-mode string is not a key of the
operation-mode mapping, the emitted operational-mode-id sample has
value -1, a non-fatal diagnostic is logged, and the info step itself
still succeeds. -/
theorem c7_unknown_mode (c : Collector) (content : ContentRoot) (q : Quirks)
    (group : ContentItem)
    (hfind : contentFindByName content (cmpName c.terms.navSystemStatus) = .ok group)
    (hmode : alookup c.terms.operationModeMapping
      (goToLower (collectInfoAcc c group).opMode) = none) :
    (collectInfo c content q).2.2.1 = none ∧
    Sample.mk opModeIDDesc .gauge (-1) [(collectInfoAcc c group).opMode] ∈
      (collectInfo c content q).1 ∧
    "opMode not configured in code" ∈ (collectInfo c content q).2.1 := by
  refine ⟨?_, ?_, ?_⟩ <;> simp [collectInfo, hfind, hmode]

/-- Witness for claim C7's theorem: the mode string "warp" is not in
the demo mapping; the mode-id sample carries -1. -/
theorem c7_unknown_mode_witness :
    (collectInfo demoC c7Root (Quirks.mk false)).2.2.1 = none ∧
    Sample.mk opModeIDDesc .gauge (-1) ["warp"] ∈
      (collectInfo demoC c7Root (Quirks.mk false)).1 ∧
    "opMode not configured in code" ∈ (collectInfo demoC c7Root (Quirks.mk false)).2.1 := by
  have h := c7_unknown_mode demoC c7Root (Quirks.mk false) c7Group rfl (by decide)
  have hacc : (collectInfoAcc demoC c7Group).opMode = "warp" := by decide
  rw [hacc] at h
  exact h

/-! ### Lemmas on the timetable step -/

theorem alookup_upsert_eq (m : List (String × Int)) (r : String) (t : Int) :
    alookup (upsertLatest m r t) r =
      some (match alookup m r with
            | none => t
            | some p => if p < t then t else p) := by
  induction m with
  | nil => simp [upsertLatest, alookup]
  | cons p rest ih =>
    by_cases h : p.1 = r
    · by_cases h2 : p.2 < t
      · simp [upsertLatest, alookup, h, h2]
      · simp [upsertLatest, alookup, h, h2]
    · simp only [upsertLatest, alookup]
      rw [if_neg h, if_neg h]
      simp only [alookup, ih]
      rw [if_neg h]

theorem alookup_upsert_ne (m : List (String × Int)) (r : String) (t : Int)
    (r' : String) (h : r' ≠ r) :
    alookup (upsertLatest m r t) r' = alookup m r' := by
  induction m with
  | nil =>
    have h2 : ¬(r = r') := fun he => h he.symm
    simp [upsertLatest, alookup, h2]
  | cons p rest ih =>
    by_cases hp : p.1 = r
    · have h2 : ¬(r = r') := fun he => h he.symm
      by_cases hlt : p.2 < t
      · simp [upsertLatest, alookup, hp, hlt, h2]
      · simp [upsertLatest, alookup, hp, hlt]
    · by_cases hp2 : p.1 = r'
      · simp only [upsertLatest, alookup]
        rw [if_neg hp]
        simp [alookup, hp2]
      · simp only [upsertLatest, alookup]
        rw [if_neg hp]
        simp [alookup, hp2, ih]

theorem maxInto_cons (o : Option Int) (t : Int) (ts : List Int) :
    maxInto o (t :: ts) =
      maxInto (some (match o with
                     | none => t
                     | some p => if p < t then t else p)) ts := rfl

theorem tsOfReason_cons (r : String) (p : String × Int) (ps : List (String × Int)) :
    tsOfReason r (p :: ps) =
      if p.1 = r then p.2 :: tsOfReason r ps else tsOfReason r ps := by
  by_cases h : p.1 = r <;> simp [tsOfReason, List.filterMap_cons, h]

theorem alookup_latestFold (pairs : List (String × Int)) :
    ∀ (acc : List (String × Int)) (r : String),
      alookup (latestFold acc pairs) r = maxInto (alookup acc r) (tsOfReason r pairs) := by
  induction pairs with
  | nil => intro acc r; simp [latestFold, tsOfReason, maxInto]
  | cons p ps ih =>
    intro acc r
    have hfold : latestFold acc (p :: ps) = latestFold (upsertLatest acc p.1 p.2) ps := by
      simp [latestFold]
    rw [hfold, ih, tsOfReason_cons]
    by_cases h : p.1 = r
    · subst h
      rw [alookup_upsert_eq, if_pos rfl, maxInto_cons]
    · rw [alookup_upsert_ne acc p.1 p.2 r (fun he => h he.symm), if_neg h]

theorem maxInto_spec : ∀ (ts : List Int) (o : Option Int) (m : Int),
    maxInto o ts = some m →
    (m ∈ ts ∨ o = some m) ∧ (∀ t ∈ ts, t ≤ m) ∧ (∀ p, o = some p → p ≤ m) := by
  intro ts
  induction ts with
  | nil =>
    intro o m h
    simp only [maxInto] at h
    exact ⟨Or.inr h, by simp,
      fun p hp => by rw [hp] at h; exact le_of_eq (Option.some.inj h)⟩
  | cons t ts ih =>
    intro o m h
    rw [maxInto_cons] at h
    cases o with
    | none =>
      simp only at h
      rcases ih _ m h with ⟨hmem, hall, hprev⟩
      have hcombo : t ≤ m := hprev t rfl
      refine ⟨?_, ?_, ?_⟩
      · rcases hmem with hm | hm
        · exact Or.inl (List.mem_cons_of_mem t hm)
        · exact Or.inl (by rw [← Option.some.inj hm]; exact List.mem_cons_self t ts)
      · intro x hx
        rcases List.mem_cons.mp hx with hxt | hxs
        · subst hxt; exact hcombo
        · exact hall x hxs
      · intro p hp
        exact Option.noConfusion hp
    | some q =>
      by_cases hq : q < t
      · simp only [if_pos hq] at h
        rcases ih _ m h with ⟨hmem, hall, hprev⟩
        have hcombo : t ≤ m := hprev t rfl
        refine ⟨?_, ?_, ?_⟩
        · rcases hmem with hm | hm
          · exact Or.inl (List.mem_cons_of_mem t hm)
          · exact Or.inl (by rw [← Option.some.inj hm]; exact List.mem_cons_self t ts)
        · intro x hx
          rcases List.mem_cons.mp hx with hxt | hxs
          · subst hxt; exact hcombo
          · exact hall x hxs
        · intro p hp
          have hpq : q = p := Option.some.inj hp
          rw [← hpq]
          exact le_trans (le_of_lt hq) hcombo
      · simp only [if_neg hq] at h
        rcases ih _ m h with ⟨hmem, hall, hprev⟩
        have hcombo : q ≤ m := hprev q rfl
        have htm : t ≤ m := le_trans (le_of_not_lt hq) hcombo
        refine ⟨?_, ?_, ?_⟩
        · rcases hmem with hm | hm
          · exact Or.inl (List.mem_cons_of_mem t hm)
          · exact Or.inr hm
        · intro x hx
          rcases List.mem_cons.mp hx with hxt | hxs
          · subst hxt; exact htm
          · exact hall x hxs
        · intro p hp
          have hpq : q = p := Option.some.inj hp
          rw [← hpq]
          exact hcombo

theorem maxInto_isSome : ∀ (ts : List Int) (x : Int),
    ∃ m, maxInto (some x) ts = some m := by
  intro ts
  induction ts with
  | nil => intro x; exact ⟨x, rfl⟩
  | cons t ts ih =>
    intro x
    rw [maxInto_cons]
    exact ih _

theorem ttSkip_iff (it : ContentItem) :
    (it.value.isNone || goTrimDashes (normalizeSpace it.name) == "") = !validRow it := by
  cases hv : it.value <;> simp [validRow, hv]

theorem rowPairs_cons_invalid (c : Collector) (it : ContentItem)
    (rest : List ContentItem) (h : validRow it = false) :
    rowPairs c (it :: rest) = rowPairs c rest := by
  simp [rowPairs, List.filter_cons, h]

theorem rowPairs_cons_valid (c : Collector) (it : ContentItem)
    (rest : List ContentItem) (h : validRow it = true) :
    rowPairs c (it :: rest) =
      (rowReason it, ((c.terms.parseTimestamp (normalizeSpace it.name)).toOption).getD 0)
        :: rowPairs c rest := by
  simp [rowPairs, List.filter_cons, h]

theorem ttLoop_ok (c : Collector) :
    ∀ (items : List ContentItem) (latest : List (String × Int)),
      (∀ it ∈ items, validRow it = true →
        (c.terms.parseTimestamp (normalizeSpace it.name)).toOption.isSome = true) →
      ttLoop c items latest = .ok (latestFold latest (rowPairs c items)) := by
  intro items
  induction items with
  | nil =>
    intro latest hp
    simp [ttLoop, rowPairs, latestFold]
  | cons it rest ih =>
    intro latest hp
    by_cases hv : validRow it = true
    · have hcond : (it.value.isNone || goTrimDashes (normalizeSpace it.name) == "") =
          false := by rw [ttSkip_iff, hv]; rfl
      have hsome := hp it (by simp) hv
      rcases hts : c.terms.parseTimestamp (normalizeSpace it.name) with e | ts
      · rw [hts] at hsome; simp [Except.toOption] at hsome
      · have hstep : ttLoop c (it :: rest) latest =
            ttLoop c rest (upsertLatest latest (normalizeSpace (it.value.getD "")) ts) := by
          simp only [ttLoop, hcond, Bool.false_eq_true, if_false, hts]
        rw [hstep, ih _ (fun x hx => hp x (by simp [hx]))]
        rw [rowPairs_cons_valid c it rest hv]
        have hval : ((c.terms.parseTimestamp (normalizeSpace it.name)).toOption).getD 0 =
            ts := by rw [hts]; rfl
        rw [hval]
        rfl
    · simp only [Bool.not_eq_true] at hv
      have hcond : (it.value.isNone || goTrimDashes (normalizeSpace it.name) == "") =
          true := by rw [ttSkip_iff, hv]; rfl
      have hstep : ttLoop c (it :: rest) latest = ttLoop c rest latest := by
        simp only [ttLoop, hcond, if_true]
      rw [hstep, ih _ (fun x hx => hp x (by simp [hx])),
        rowPairs_cons_invalid c it rest hv]

theorem upsert_keys (m : List (String × Int)) (r : String) (t : Int) :
    (upsertLatest m r t).map Prod.fst =
      if r ∈ m.map Prod.fst then m.map Prod.fst else m.map Prod.fst ++ [r] := by
  induction m with
  | nil => simp [upsertLatest]
  | cons p rest ih =>
    by_cases hp : p.1 = r
    · by_cases hlt : p.2 < t
      · simp [upsertLatest, hp, hlt]
      · simp [upsertLatest, hp, hlt]
    · have hmm : (r ∈ (p :: rest).map Prod.fst) = (r ∈ rest.map Prod.fst) := by
        simp only [List.map_cons, List.mem_cons]
        have : ¬(r = p.1) := fun he => hp he.symm
        simp [this]
      simp only [upsertLatest]
      rw [if_neg hp]
      simp only [List.map_cons, ih, hmm]
      by_cases hm : r ∈ rest.map Prod.fst
      · simp [hm]
      · simp [hm]
        rw [if_neg (fun he => hp he.symm)]

theorem upsert_nodupkeys (m : List (String × Int)) (r : String) (t : Int)
    (h : (m.map Prod.fst).Nodup) : ((upsertLatest m r t).map Prod.fst).Nodup := by
  rw [upsert_keys]
  by_cases hm : r ∈ m.map Prod.fst
  · simp [hm, h]
  · simp [hm, h, List.nodup_append]

theorem latestFold_nodupkeys (pairs : List (String × Int)) :
    ∀ acc : List (String × Int), (acc.map Prod.fst).Nodup →
      ((latestFold acc pairs).map Prod.fst).Nodup := by
  induction pairs with
  | nil => intro acc h; exact h
  | cons p ps ih =>
    intro acc h
    have hfold : latestFold acc (p :: ps) = latestFold (upsertLatest acc p.1 p.2) ps := by
      simp [latestFold]
    rw [hfold]
    exact ih _ (upsert_nodupkeys acc p.1 p.2 h)

theorem mem_upsert_keys (m : List (String × Int)) (r0 : String) (t : Int) (r : String) :
    r ∈ (upsertLatest m r0 t).map Prod.fst ↔ (r ∈ m.map Prod.fst ∨ r = r0) := by
  rw [upsert_keys]
  by_cases h : r0 ∈ m.map Prod.fst
  · rw [if_pos h]
    constructor
    · exact Or.inl
    · rintro (hm | hm)
      · exact hm
      · rwa [hm]
  · rw [if_neg h]
    simp

theorem latestFold_mem_keys (pairs : List (String × Int)) :
    ∀ (acc : List (String × Int)) (r : String),
      r ∈ (latestFold acc pairs).map Prod.fst ↔
        (r ∈ acc.map Prod.fst ∨ r ∈ pairs.map Prod.fst) := by
  induction pairs with
  | nil => intro acc r; simp [latestFold]
  | cons p ps ih =>
    intro acc r
    have hfold : latestFold acc (p :: ps) = latestFold (upsertLatest acc p.1 p.2) ps := by
      simp [latestFold]
    rw [hfold, ih, mem_upsert_keys]
    simp only [List.map_cons, List.mem_cons]
    tauto

theorem alookup_eq_none_iff (m : List (String × Int)) (r : String) :
    alookup m r = none ↔ r ∉ m.map Prod.fst := by
  induction m with
  | nil => simp [alookup]
  | cons p rest ih =>
    by_cases h : p.1 = r
    · simp [alookup, h]
    · have : ¬(r = p.1) := fun he => h he.symm
      simp [alookup, h, ih, this]

theorem alookup_some_mem (m : List (String × Int)) (r : String) (v : Int) :
    alookup m r = some v → (r, v) ∈ m := by
  induction m with
  | nil => intro h; simp [alookup] at h
  | cons p rest ih =>
    intro h
    by_cases hp : p.1 = r
    · rcases p with ⟨a, b⟩
      simp only [alookup] at h
      rw [if_pos hp] at h
      simp only at hp
      subst hp
      rw [Option.some.inj h]
      exact List.mem_cons_self _ _
    · simp only [alookup] at h
      rw [if_neg hp] at h
      exact List.mem_cons_of_mem _ (ih h)

theorem count_reason (latest : List (String × Int)) (desc : String) (r : String)
    (h : (latest.map Prod.fst).Nodup) :
    ((latest.map (fun p => Sample.mk desc .gauge (p.2 : ℚ) [p.1])).countP
      (fun s => decide (s.labels = [r]))) =
      if r ∈ latest.map Prod.fst then 1 else 0 := by
  rw [List.countP_map]
  have hcongr : ∀ p ∈ latest,
      (((fun s => decide (s.labels = [r])) ∘
        (fun p : String × Int => Sample.mk desc .gauge (p.2 : ℚ) [p.1])) p = true ↔
      (((fun x => decide (x = r)) ∘ Prod.fst) p = true)) := by
    intro p hp
    simp [Function.comp]
  rw [List.countP_congr hcongr, ← List.countP_map]
  have hcnt : (latest.map Prod.fst).countP (fun x => decide (x = r)) =
      (latest.map Prod.fst).count r := by
    rw [List.count]
    refine List.countP_congr ?_
    intro x hx
    simp [beq_iff_eq]
  rw [hcnt]
  by_cases hm : r ∈ latest.map Prod.fst
  · rw [if_pos hm]
    exact List.count_eq_one_of_mem h hm
  · rw [if_neg hm]
    exact List.count_eq_zero_of_not_mem hm

/-- Claim C6: for a timetable group that resolves and whose kept rows
all parse, the step succeeds; rows with an absent value or an all-dash
normalized name are skipped entirely; if no valid rows exist exactly
one placeholder sample (empty reason, value 0) is emitted; otherwise
exactly one sample is emitted per distinct normalized reason, and it
carries the chronologically latest timestamp among that reason's rows
(compared as times, not by row order) as its value in Unix seconds. -/
theorem c6_timetable (c : Collector) (desc : String) (content : ContentRoot)
    (groupName : String) (group : ContentItem)
    (hfind : contentFindByName content (cmpName groupName) = .ok group)
    (hparse : ∀ it ∈ group.items.toList, validRow it = true →
       (c.terms.parseTimestamp (normalizeSpace it.name)).toOption.isSome = true) :
    (collectTimetable c desc content groupName).2 = none ∧
    (rowPairs c group.items.toList = [] →
       (collectTimetable c desc content groupName).1 = [Sample.mk desc .gauge 0 [""]]) ∧
    (∀ r : String, rowPairs c group.items.toList ≠ [] →
       (collectTimetable c desc content groupName).1.countP
          (fun s => decide (s.labels = [r])) =
         if r ∈ (rowPairs c group.items.toList).map Prod.fst then 1 else 0) ∧
    (∀ r ∈ (rowPairs c group.items.toList).map Prod.fst,
       ∃ m : Int,
         Sample.mk desc .gauge (m : ℚ) [r] ∈
           (collectTimetable c desc content groupName).1 ∧
         m ∈ tsOfReason r (rowPairs c group.items.toList) ∧
         ∀ t ∈ tsOfReason r (rowPairs c group.items.toList), t ≤ m) := by
  have hloop := ttLoop_ok c group.items.toList [] hparse
  have hkeys : ∀ r : String,
      r ∈ (latestFold [] (rowPairs c group.items.toList)).map Prod.fst ↔
        r ∈ (rowPairs c group.items.toList).map Prod.fst := by
    intro r
    rw [latestFold_mem_keys]
    simp
  have hnodup : ((latestFold [] (rowPairs c group.items.toList)).map Prod.fst).Nodup :=
    latestFold_nodupkeys _ [] (by simp)
  have hct_nil : latestFold [] (rowPairs c group.items.toList) = [] →
      collectTimetable c desc content groupName = ([Sample.mk desc .gauge 0 [""]], none) := by
    intro hl
    simp [collectTimetable, hfind, hloop, hl]
  have hct_cons : latestFold [] (rowPairs c group.items.toList) ≠ [] →
      collectTimetable c desc content groupName =
        ((latestFold [] (rowPairs c group.items.toList)).map
          (fun p => Sample.mk desc .gauge (p.2 : ℚ) [p.1]), none) := by
    intro hl
    rcases hll : latestFold [] (rowPairs c group.items.toList) with _ | ⟨p, ps⟩
    · exact absurd hll hl
    · simp [collectTimetable, hfind, hloop, hll]
  refine ⟨?_, ?_, ?_, ?_⟩
  · by_cases hl : latestFold [] (rowPairs c group.items.toList) = []
    · rw [hct_nil hl]
    · rw [hct_cons hl]
  · intro hp
    have hl : latestFold [] (rowPairs c group.items.toList) = [] := by
      rw [hp]
      rfl
    rw [hct_nil hl]
  · intro r hne
    have hl : latestFold [] (rowPairs c group.items.toList) ≠ [] := by
      intro h0
      rcases hpp : rowPairs c group.items.toList with _ | ⟨p, ps⟩
      · exact hne hpp
      · have : p.1 ∈ (rowPairs c group.items.toList).map Prod.fst := by
          rw [hpp]; simp
        have hk := (hkeys p.1).mpr this
        rw [h0] at hk
        simp at hk
    rw [hct_cons hl]
    simp only
    rw [count_reason _ desc r hnodup]
    by_cases hr : r ∈ (rowPairs c group.items.toList).map Prod.fst
    · rw [if_pos ((hkeys r).mpr hr), if_pos hr]
    · rw [if_neg (fun hk => hr ((hkeys r).mp hk)), if_neg hr]
  · intro r hr
    have hk : r ∈ (latestFold [] (rowPairs c group.items.toList)).map Prod.fst :=
      (hkeys r).mpr hr
    have hl : latestFold [] (rowPairs c group.items.toList) ≠ [] := by
      intro h0
      rw [h0] at hk
      simp at hk
    have hlk : alookup (latestFold [] (rowPairs c group.items.toList)) r ≠ none := by
      intro h0
      exact ((alookup_eq_none_iff _ r).mp h0) hk
    rcases hsm : alookup (latestFold [] (rowPairs c group.items.toList)) r with _ | m
    · exact absurd hsm hlk
    · have hmax : maxInto none (tsOfReason r (rowPairs c group.items.toList)) = some m := by
        have hlf := alookup_latestFold (rowPairs c group.items.toList) [] r
        rw [hsm] at hlf
        exact hlf.symm
      rcases maxInto_spec _ none m hmax with ⟨hmem, hall, _⟩
      refine ⟨m, ?_, ?_, hall⟩
      · rw [hct_cons hl]
        simp only
        exact List.mem_map_of_mem _ (alookup_some_mem _ r m hsm)
      · rcases hmem with hm | hm
        · exact hm
        · exact Option.noConfusion hm

/-- Witness for claim C6's theorem on the spec's example rows (plus an
all-dash row and a valueless row, both skipped): two samples, reason
"aaa" at the later of its two timestamps and reason "bbb" at its
timestamp. -/
theorem c6_timetable_witness :
    (collectTimetable demoC "d" c6Root "tt").2 = none ∧
    (collectTimetable demoC "d" c6Root "tt").1.countP
      (fun s => decide (s.labels = ["aaa"])) = 1 ∧
    (collectTimetable demoC "d" c6Root "tt").1.countP
      (fun s => decide (s.labels = ["bbb"])) = 1 ∧
    Sample.mk "d" .gauge ((1296633600 : Int) : ℚ) ["aaa"] ∈
      (collectTimetable demoC "d" c6Root "tt").1 ∧
    Sample.mk "d" .gauge ((1396558800 : Int) : ℚ) ["bbb"] ∈
      (collectTimetable demoC "d" c6Root "tt").1 ∧
    (collectTimetable demoC "d" c6Root "tt").1.length = 2 := by
  have h := c6_timetable demoC "d" c6Root "tt" c6Group rfl (by decide)
  have hne : rowPairs demoC c6Group.items.toList ≠ [] := by decide
  have haaa := h.2.2.1 "aaa" hne
  have hbbb := h.2.2.1 "bbb" hne
  refine ⟨h.1, ?_, ?_, by decide, by decide, by decide⟩
  · rw [haaa]
    decide
  · rw [hbbb]
    decide
